import Mathlib

/-!
# MoeingDB indexer (`indexer/indexer.cpp`)

A shallow embedding of the in-memory indexing core and the properties proved about it.

Conventions of the embedding.

* Machine integers are natural numbers; every place where the C++ arithmetic can wrap is
  written with an explicit `% 2 ^ 64`. `int64_t` results (`-1` for "absent") are integers.
* `assert` is compiled out, as in a release build. Where the asserted condition protects a
  memory access (a null vector, a write past `arr[3]`) or where `std::vector::at` throws,
  the embedded function returns `none`.
* A `uint32_t* index_ptr, int index_count` pair is a list of indices; `index_count` is its
  length.
* The sharded ordered map `bigmap` and the packed scalars `bits24`, `bits32`, `bits40` are
  declared in headers that are not among the sources; they are modelled from the
  specification and marked as such.
-/

namespace MoeingDB

/-! ## Packed scalars (declared in `indexer.h`) -/

/-- Modelled from the spec: `bits24::from_uint64` (indexer.h is missing), the `u24` view of
an integer: the low 24 bits. -/
def bits24.from_uint64 (u : Nat) : Nat := u % 2 ^ 24

/-- Modelled from the spec: `bits24::from_uint32` (indexer.h is missing), the low 24 bits. -/
def bits24.from_uint32 (u : Nat) : Nat := u % 2 ^ 24

/-- Modelled from the spec: `bits32::from_uint64` (indexer.h is missing), the low 32 bits of
a hash. -/
def bits32.from_uint64 (u : Nat) : Nat := u % 2 ^ 32

/-- Modelled from the spec: `bits40::from_uint64` (indexer.h is missing), the low 40 bits of
an id. -/
def bits40.from_uint64 (u : Nat) : Nat := u % 2 ^ 40

/-- Modelled from the spec: `bits40::from_int64` (indexer.h is missing): a file offset is
stored as an unsigned 40-bit quantity. -/
def bits40.from_int64 (i : Int) : Nat := (i % ((2 ^ 40 : Nat) : Int)).toNat

/-- Modelled from the spec: `bits40::to_int64` (indexer.h is missing): the stored unsigned
40-bit offset, exposed as a signed 64-bit number. -/
def bits40.to_int64 (b : Nat) : Int := (b : Int)

/-! ## The sharded ordered map (declared in `bigmap.h`) -/

/-- Modelled from the spec: one shard of `bigmap` (its `basic_map`; bigmap.h is missing):
insertion is an upsert that keeps the keys in ascending order. -/
def basic_map.insert {V : Type} : List (Nat × V) → Nat → V → List (Nat × V)
  | [], k, v => [(k, v)]
  | e :: rest, k, v =>
    if k < e.1 then (k, v) :: e :: rest
    else if k = e.1 then (k, v) :: rest
    else e :: basic_map.insert rest k v

/-- Modelled from the spec: `erase` on one shard (bigmap.h is missing): removes the key if
present. -/
def basic_map.erase {V : Type} (m : List (Nat × V)) (k : Nat) : List (Nat × V) :=
  m.filter (fun e => decide (e.1 ≠ k))

/-- Modelled from the spec: exact-match lookup on one shard (bigmap.h is missing). -/
def basic_map.get {V : Type} (m : List (Nat × V)) (k : Nat) : Option V :=
  (m.find? (fun e => decide (e.1 = k))).map (fun e => e.2)

/-- Modelled from the spec: `lower_bound` on one shard (bigmap.h is missing): the entries
from the first key `≥ k` on. -/
def basic_map.lower_bound {V : Type} (m : List (Nat × V)) (k : Nat) : List (Nat × V) :=
  m.dropWhile (fun e => decide (e.1 < k))

/-- A shard is well formed when its keys are strictly ascending. -/
def basic_map.sorted {V : Type} (m : List (Nat × V)) : Prop :=
  m.Pairwise (fun a b => a.1 < b.1)

/-- Modelled from the spec: the sharded ordered map `bigmap<slot_count, key, value>`
(bigmap.h is missing): `_map_arr idx` is the ordered sub-map of shard `idx`. -/
structure bigmap (V : Type) where
  _map_arr : Nat → List (Nat × V)

/-- The map with every shard empty. -/
def bigmap.empty {V : Type} : bigmap V := ⟨fun _ => []⟩

/-- Modelled from the spec: `insert(shard, key, value)` (bigmap.h is missing): upsert. -/
def bigmap.insert {V : Type} (m : bigmap V) (idx k : Nat) (v : V) : bigmap V :=
  ⟨Function.update m._map_arr idx (basic_map.insert (m._map_arr idx) k v)⟩

/-- Modelled from the spec: `erase(shard, key)` (bigmap.h is missing): no error if absent. -/
def bigmap.erase {V : Type} (m : bigmap V) (idx k : Nat) : bigmap V :=
  ⟨Function.update m._map_arr idx (basic_map.erase (m._map_arr idx) k)⟩

/-- Modelled from the spec: `get(shard, key) → (value, found)` (bigmap.h is missing); the
result is `some value` exactly when `found`. -/
def bigmap.get {V : Type} (m : bigmap V) (idx k : Nat) : Option V :=
  basic_map.get (m._map_arr idx) k

/-- Modelled from the spec: `seek(shard, key)` (bigmap.h is missing): the cursor at the
first key `≥ key` within the shard. The result is `some entry` exactly when the flag the
C++ function stores through `ok` is set. The flag is read the way `indexer.cpp` uses it, as
"the cursor points at an entry": the callers compare the key themselves after testing it
(lines 171 and 184, and the comment of line 180). -/
def bigmap.seek {V : Type} (m : bigmap V) (idx k : Nat) : Option (Nat × V) :=
  (basic_map.lower_bound (m._map_arr idx) k).head?

/-- Modelled from the spec: `iterator(shard_lo, key_lo, shard_hi, key_hi)` (bigmap.h is
missing): a forward cursor over a closed range, represented by the entries it has still to
visit, in ascending order. The indexer only ever passes `shard_lo = shard_hi`. -/
def bigmap.get_iterator {V : Type} (m : bigmap V)
    (start_idx start_key end_idx end_key : Nat) : List (Nat × V) :=
  if start_idx = end_idx then
    (basic_map.lower_bound (m._map_arr start_idx) start_key).takeWhile
      (fun e => decide (e.1 ≤ end_key))
  else if start_idx < end_idx then
    basic_map.lower_bound (m._map_arr start_idx) start_key
      ++ (List.range' (start_idx + 1) (end_idx - start_idx - 1)).flatMap m._map_arr
      ++ (m._map_arr end_idx).takeWhile (fun e => decide (e.1 ≤ end_key))
  else []

/-- Every shard of the map has strictly ascending keys. -/
def bigmap.wf {V : Type} (m : bigmap V) : Prop :=
  ∀ idx, basic_map.sorted (m._map_arr idx)

/-! ## Compact index lists (indexer.cpp lines 7-33) -/

/-- The loop of `compact_index_list` (lines 11-13): `res |= uint64_t(index_ptr[i]) << (i*20)`
for `i < index_count && i < 3`. -/
def compact_index_loop (index_ptr : List Nat) (index_count : Nat) : Nat → Nat → Nat
  | 0, res => res
  | n + 1, res =>
    let i := min index_count 3 - (n + 1)
    compact_index_loop index_ptr index_count n
      (res ||| ((index_ptr.getD i 0) <<< (i * 20)) % 2 ^ 64)

/-- The function `compact_index_list` (lines 9-16). -/
def compact_index_list (index_ptr : List Nat) (index_count : Nat) : Nat :=
  let res := compact_index_loop index_ptr index_count (min index_count 3) 0
  res ||| (index_count <<< 61) % 2 ^ 64

/-- The struct `bits24_list` (lines 18-21): `data` is what the `data` pointer points at,
`size` the number of elements to read from it. -/
structure bits24_list where
  data : List Nat
  size : Nat
deriving DecidableEq

/-- The function `bits24_list::from_uint64` (lines 23-32): `size = u >> 61`, element `i` is
the `bits24` taken from `u >> (i*20)`. A size above 3 writes past `arr` (`none`). -/
def bits24_list.from_uint64 (u : Nat) : Option bits24_list :=
  let size := u >>> 61
  if size ≤ 3 then
    some ⟨(List.range size).map (fun i => bits24.from_uint64 (u >>> (i * 20))), size⟩
  else none

/-! ## The indexer (indexer.cpp lines 48-161) -/

/-- The class `indexer` (lines 54-60). A `bits24_vec*` value is `none` for `nullptr` and
`some vec` for an owned vector. -/
structure indexer where
  blk_htpos2ptr_map : bigmap (Option (List Nat))
  blk_hash2ht_map : bigmap Nat
  tx_id2pos_map : bigmap Nat
  tx_hash2pos_map : bigmap Nat
  addr_map : bigmap Nat
  topic_map : bigmap Nat

/-- The freshly constructed indexer (line 64). -/
def indexer.empty : indexer :=
  ⟨bigmap.empty, bigmap.empty, bigmap.empty, bigmap.empty, bigmap.empty, bigmap.empty⟩

/-- All six maps have strictly ascending keys in every shard. -/
def indexer.wf (s : indexer) : Prop :=
  s.blk_htpos2ptr_map.wf ∧ s.blk_hash2ht_map.wf ∧ s.tx_id2pos_map.wf ∧
    s.tx_hash2pos_map.wf ∧ s.addr_map.wf ∧ s.topic_map.wf

/-- The function `indexer::get_iter_at_height` (lines 181-186): `some entry` exactly when
`*ok` is set, i.e. the seek found an entry whose key has the same high 24 bits. -/
def get_iter_at_height (s : indexer) (height : Nat) : Option (Nat × Option (List Nat)) :=
  let ht3off5 := (height <<< 40) % 2 ^ 64
  match s.blk_htpos2ptr_map.seek (height >>> 24) ht3off5 with
  | none => none
  | some e => if ht3off5 >>> 40 = e.1 >>> 40 then some e else none

/-- The function `indexer::get_vec_at_height` (lines 210-220): the returned pointer and the
indexer afterwards (a vector is created when asked for). -/
def get_vec_at_height (s : indexer) (height : Nat) (create_if_null : Bool) :
    Option (List Nat) × indexer :=
  match get_iter_at_height s height with
  | none => (none, s)
  | some e =>
    if e.2 = none ∧ create_if_null = true then
      (some [], { s with
        blk_htpos2ptr_map := s.blk_htpos2ptr_map.insert (height >>> 24) e.1 (some []) })
    else (e.2, s)

/-- The function `indexer::add_block` (lines 164-177): the returned flag and the indexer
afterwards. `shrink_to_fit` on the previous block's vector (lines 165-167) changes no
contents. -/
def add_block (s : indexer) (height hash48 : Nat) (offset40 : Int) : Bool × indexer :=
  let it : Option (Nat × Nat) := s.blk_hash2ht_map.seek (hash48 >>> 32) (hash48 % 2 ^ 32)
  let conflict : Bool :=
    match it with
    | none => false
    | some e => decide (e.1 = hash48 % 2 ^ 32)
  if conflict = true then (false, s)
  else
    let off : Nat := (offset40 % ((2 ^ 64 : Nat) : Int)).toNat
    let ht3off5 : Nat := (height <<< 40) % 2 ^ 64 ||| (((off <<< 24) % 2 ^ 64) >>> 24)
    (true, { s with
      blk_htpos2ptr_map := s.blk_htpos2ptr_map.insert (height >>> 24) ht3off5 none
      blk_hash2ht_map := s.blk_hash2ht_map.insert (hash48 >>> 32) (hash48 % 2 ^ 32) height })

/-- The function `indexer::erase_block` (lines 189-197). -/
def erase_block (s : indexer) (height hash48 : Nat) : indexer :=
  let s1 :=
    match get_iter_at_height s height with
    | some e => { s with blk_htpos2ptr_map := s.blk_htpos2ptr_map.erase (height >>> 24) e.1 }
    | none => s
  { s1 with blk_hash2ht_map := s1.blk_hash2ht_map.erase (hash48 >>> 32) (hash48 % 2 ^ 32) }

/-- The function `indexer::offset_by_block_height` (lines 200-207). -/
def offset_by_block_height (s : indexer) (height : Nat) : Int :=
  match get_iter_at_height s height with
  | none => -1
  | some e => ((((e.1 <<< 24) % 2 ^ 64) >>> 24 : Nat) : Int)

/-- The function `indexer::offset_by_block_hash` (lines 223-228). -/
def offset_by_block_hash (s : indexer) (hash48 : Nat) : Int :=
  match s.blk_hash2ht_map.get (hash48 >>> 32) (hash48 % 2 ^ 32) with
  | none => -1
  | some height => offset_by_block_height s height

/-- The function `indexer::add_tx` (lines 232-240). -/
def add_tx (s : indexer) (id56 hash48 : Nat) (offset40 : Int) : Bool × indexer :=
  match s.tx_hash2pos_map.get (hash48 >>> 32) (bits32.from_uint64 hash48) with
  | some _ => (false, s)
  | none =>
    let off40 := bits40.from_int64 offset40
    (true, { s with
      tx_id2pos_map := s.tx_id2pos_map.insert (id56 >>> 40) (bits40.from_uint64 id56) off40
      tx_hash2pos_map :=
        s.tx_hash2pos_map.insert (hash48 >>> 32) (bits32.from_uint64 hash48) off40 })

/-- The function `indexer::erase_tx` (lines 243-246). -/
def erase_tx (s : indexer) (id56 hash48 : Nat) : indexer :=
  { s with
    tx_id2pos_map := s.tx_id2pos_map.erase (id56 >>> 40) (bits40.from_uint64 id56)
    tx_hash2pos_map := s.tx_hash2pos_map.erase (hash48 >>> 32) (bits32.from_uint64 hash48) }

/-- The function `indexer::offset_by_tx_id` (lines 249-254). -/
def offset_by_tx_id (s : indexer) (id56 : Nat) : Int :=
  match s.tx_id2pos_map.get (id56 >>> 40) (bits40.from_uint64 id56) with
  | none => -1
  | some off => bits40.to_int64 off

/-- The function `indexer::offset_by_tx_hash` (lines 257-262). -/
def offset_by_tx_hash (s : indexer) (hash48 : Nat) : Int :=
  match s.tx_hash2pos_map.get (hash48 >>> 32) (bits32.from_uint64 hash48) with
  | none => -1
  | some off => bits40.to_int64 off

/-! ## Log maps and the transaction iterator (indexer.cpp lines 80-159, 265-281) -/

/-- Modelled from the spec: `valid()` of a map cursor (bigmap.h is missing): entries remain
inside the range. -/
def bigmap.iterator.valid {V : Type} (it : List (Nat × V)) : Bool := !it.isEmpty

/-- Modelled from the spec: `key()` of a map cursor (bigmap.h is missing). The spec gives no
meaning to the key of an invalid cursor; the model reads 0 there. -/
def bigmap.iterator.key {V : Type} (it : List (Nat × V)) : Nat :=
  match it with
  | [] => 0
  | e :: _ => e.1

/-- Modelled from the spec: `value()` of a log-map cursor (bigmap.h is missing). The spec
gives no meaning to the value of an invalid cursor; the model reads 0 there. -/
def bigmap.iterator.value (it : List (Nat × Nat)) : Nat :=
  match it with
  | [] => 0
  | e :: _ => e.2

/-- Modelled from the spec: `next()` of a map cursor (bigmap.h is missing). -/
def bigmap.iterator.next {V : Type} (it : List (Nat × V)) : List (Nat × V) := it.tail

/-- Modelled from the spec: `bits24::to_uint64` (indexer.h is missing). -/
def bits24.to_uint64 (b : Nat) : Nat := b

/-- The key of a log entry, `(hash48<<32)|uint64_t(height)` (lines 83, 148, 280). -/
def log_key (hash48 height : Nat) : Nat := (hash48 <<< 32) % 2 ^ 64 ||| height

/-- Writing through the pointer that `get_vec_at_height` returned: the vector owned by the
block content entry of `height` now holds `vec`. -/
def set_vec_at_height (s : indexer) (height : Nat) (vec : List Nat) : indexer :=
  match get_iter_at_height s height with
  | none => s
  | some e =>
    { s with blk_htpos2ptr_map := s.blk_htpos2ptr_map.insert (height >>> 24) e.1 (some vec) }

/-- The function `indexer::add_to_log_map` (lines 265-281): the indexer (whose per-block
vector may have grown) and the log map `m` afterwards; `none` when the block has no entry
(line 272 and the null pointer behind it). -/
def add_to_log_map (s : indexer) (m : bigmap Nat) (hash48 height : Nat)
    (index_ptr : List Nat) : Option (indexer × bigmap Nat) :=
  let index_count := index_ptr.length
  if index_count ≤ 3 then
    let v := compact_index_list index_ptr index_count
    some (s, m.insert (hash48 >>> 32) (log_key hash48 height) v)
  else
    match get_vec_at_height s height true with
    | (none, _) => none
    | (some vec, s1) =>
      let v := vec.length ||| (7 <<< 61)
      let vec1 := vec ++ [bits24.from_uint32 index_count] ++ index_ptr.map bits24.from_uint32
      some (set_vec_at_height s1 height vec1,
        m.insert (hash48 >>> 32) (log_key hash48 height) v)

/-- The function `indexer::erase_in_log_map` (lines 82-84). -/
def erase_in_log_map (m : bigmap Nat) (hash48 height : Nat) : bigmap Nat :=
  m.erase (hash48 >>> 32) (log_key hash48 height)

/-- The function `indexer::add_addr2log` (lines 86-88). -/
def add_addr2log (s : indexer) (hash48 height : Nat) (index_ptr : List Nat) :
    Option indexer :=
  (add_to_log_map s s.addr_map hash48 height index_ptr).map
    (fun r => { r.1 with addr_map := r.2 })

/-- The function `indexer::add_topic2log` (lines 92-94). -/
def add_topic2log (s : indexer) (hash48 height : Nat) (index_ptr : List Nat) :
    Option indexer :=
  (add_to_log_map s s.topic_map hash48 height index_ptr).map
    (fun r => { r.1 with topic_map := r.2 })

/-- The function `indexer::erase_topic2log` (lines 95-97). -/
def erase_topic2log (s : indexer) (hash48 height : Nat) : indexer :=
  { s with topic_map := erase_in_log_map s.topic_map hash48 height }

/-- The class `indexer::tx_iterator` (lines 100-104). The `_parent` pointer is the indexer
passed to the member functions that use it. -/
structure tx_iterator where
  _curr_list : bits24_list
  _curr_list_idx : Nat
  _iter : List (Nat × Nat)
deriving DecidableEq

/-- The function `tx_iterator::valid` (lines 107-109). -/
def tx_iterator.valid (it : tx_iterator) : Bool :=
  bigmap.iterator.valid it._iter && decide (it._curr_list_idx < it._curr_list.size)

/-- The function `tx_iterator::value` (lines 110-114); `none` when the element read lies
past the end of the vector `data` points into. -/
def tx_iterator.value (it : tx_iterator) : Option Nat :=
  if it.valid = false then some (2 ^ 64 - 1)
  else
    let height := bigmap.iterator.key it._iter % 2 ^ 32
    match it._curr_list.data[it._curr_list_idx]? with
    | none => none
    | some d => some (height <<< 24 ||| bits24.to_uint64 d)

/-- The function `tx_iterator::load_list` (lines 125-141); `none` when the block has no
vector (line 133) or `vec->at` is out of range (line 134). -/
def tx_iterator.load_list (s : indexer) (it : tx_iterator) : Option tx_iterator :=
  let magic_u64 := bigmap.iterator.value it._iter
  let height := bigmap.iterator.key it._iter % 2 ^ 32
  let tag := magic_u64 >>> 61
  let magic_u64 := ((magic_u64 <<< 3) % 2 ^ 64) >>> 3
  if tag = 7 then
    match (get_vec_at_height s height false).1 with
    | none => none
    | some vec =>
      match vec[magic_u64]? with
      | none => none
      | some n =>
        some { it with
          _curr_list_idx := 0
          _curr_list := ⟨vec.drop (magic_u64 + 1), bits24.to_uint64 n⟩ }
  else
    match bits24_list.from_uint64 magic_u64 with
    | none => none
    | some l => some { it with _curr_list_idx := 0, _curr_list := l }

/-- The function `tx_iterator::next` (lines 115-124). -/
def tx_iterator.next (s : indexer) (it : tx_iterator) : Option tx_iterator :=
  if it.valid = false then some it
  else if it._curr_list_idx < it._curr_list.size then
    some { it with _curr_list_idx := it._curr_list_idx + 1 }
  else
    let it1 : tx_iterator := { it with _iter := bigmap.iterator.next it._iter }
    if bigmap.iterator.valid it1._iter = false then some it1
    else it1.load_list s

/-- The function `indexer::_iterator_at_log_map` (lines 145-152). -/
def _iterator_at_log_map (s : indexer) (m : bigmap Nat)
    (hash48 start_height end_height : Nat) : Option tx_iterator :=
  let it : tx_iterator :=
    ⟨⟨[], 0⟩, 0, m.get_iterator (hash48 >>> 32) (log_key hash48 start_height)
      (hash48 >>> 32) (log_key hash48 end_height)⟩
  it.load_list s

/-- The function `indexer::addr_iterator` (lines 154-156). -/
def addr_iterator (s : indexer) (hash48 start_height end_height : Nat) :
    Option tx_iterator :=
  _iterator_at_log_map s s.addr_map hash48 start_height end_height

/-- The function `indexer::topic_iterator` (lines 157-159). -/
def topic_iterator (s : indexer) (hash48 start_height end_height : Nat) :
    Option tx_iterator :=
  _iterator_at_log_map s s.topic_map hash48 start_height end_height

/-- Reading an iterator the way its clients do: while `valid()`, take `value()` and call
`next()`; at most `fuel` rounds. -/
def tx_iterator.collect (s : indexer) : Nat → tx_iterator → Option (List Nat)
  | 0, _ => some []
  | fuel + 1, it =>
    if it.valid = false then some []
    else
      match it.value, it.next s with
      | some v, some it1 => (tx_iterator.collect s fuel it1).map (fun vs => v :: vs)
      | _, _ => none

/-- The ids an iterator yields until `valid()` is false. The number of rounds is bounded by
the slots left in the current list (`tx_iterator_collect_fuel_stable`: more fuel changes
nothing). -/
def tx_iterator.yielded (s : indexer) (it : tx_iterator) : Option (List Nat) :=
  tx_iterator.collect s (it._curr_list.size - it._curr_list_idx) it

/-! ## The intersection query (indexer.cpp lines 284-326) -/

/-- Modelled from the spec: the struct `tx_offsets_query` (indexer.h is missing);
`topic_count` is the length of `topic_hash`. -/
structure tx_offsets_query where
  addr_hash : Nat
  topic_hash : List Nat
  start_height : Nat
  end_height : Nat

/-- The function `iters_all_valid` (lines 284-290). -/
def iters_all_valid (iters : List tx_iterator) : Bool :=
  iters.all (fun it => it.valid)

/-- The loop of `iters_value_all_equal` (lines 295-297) over `iters[1..]`. -/
def iters_value_equal_loop (it0 : tx_iterator) : List tx_iterator → Option Bool
  | [] => some true
  | it :: rest =>
    match it.value, it0.value with
    | some a, some b => if a ≠ b then some false else iters_value_equal_loop it0 rest
    | _, _ => none

/-- The function `iters_value_all_equal` (lines 293-299). -/
def iters_value_all_equal (iters : List tx_iterator) : Option Bool :=
  match iters with
  | [] => some true
  | it0 :: rest => iters_value_equal_loop it0 rest

/-- The `while` loop of line 316 for one cursor `iters[i]`, at most `fuel` rounds. -/
def catch_up (s : indexer) (it0 : tx_iterator) : Nat → tx_iterator → Option tx_iterator
  | 0, it => some it
  | fuel + 1, it =>
    if it.valid = false then some it
    else
      match it.value, it0.value with
      | some a, some b =>
        if a ≤ b then
          match it.next s with
          | none => none
          | some it1 => catch_up s it0 fuel it1
        else some it
      | _, _ => none

/-- The `for` loop of lines 315-319 over `iters[1..]`. -/
def catch_up_all (s : indexer) (it0 : tx_iterator) :
    List tx_iterator → Option (List tx_iterator)
  | [] => some []
  | it :: rest =>
    match catch_up s it0 (it._curr_list.size - it._curr_list_idx) it with
    | none => none
    | some it1 => (catch_up_all s it0 rest).map (fun r => it1 :: r)

/-- The `for` loop of lines 314-324, entered with `all_valid` true: `acc` is `*i64_vec`. -/
def query_loop (s : indexer) : Nat → List tx_iterator → List Int → Option (List Int)
  | 0, _, acc => some acc
  | _ + 1, [], acc => some acc
  | fuel + 1, it0 :: rest, acc =>
    match catch_up_all s it0 rest with
    | none => none
    | some rest1 =>
      let all_valid := iters_all_valid (it0 :: rest1)
      let hit : Option Bool :=
        if all_valid = true then iters_value_all_equal (it0 :: rest1) else some false
      match hit with
      | none => none
      | some found =>
        let pushed : Option (List Int) :=
          if found = true then it0.value.map (fun id56 => acc ++ [offset_by_tx_id s id56])
          else some acc
        match pushed, it0.next s with
        | some acc1, some it1 =>
          if all_valid = true then query_loop s fuel (it1 :: rest1) acc1 else some acc1
        | _, _ => none

/-- Building the cursors one after the other (lines 304-310). -/
def build_iters : List (Option tx_iterator) → Option (List tx_iterator)
  | [] => some []
  | none :: _ => none
  | some it :: rest => (build_iters rest).map (fun r => it :: r)

/-- The function `indexer::query_tx_offsets` (lines 302-326): the offsets in the returned
`i64_list` (empty for the null list of line 312). -/
def query_tx_offsets (s : indexer) (q : tx_offsets_query) : Option (List Int) :=
  let addr_iters : List (Option tx_iterator) :=
    if q.addr_hash >>> 48 = 0 then [addr_iterator s q.addr_hash q.start_height q.end_height]
    else []
  let topic_iters : List (Option tx_iterator) :=
    q.topic_hash.map (fun t => topic_iterator s t q.start_height q.end_height)
  match build_iters (addr_iters ++ topic_iters) with
  | none => none
  | some [] => some []
  | some (it0 :: rest) =>
    if iters_all_valid (it0 :: rest) = true then
      query_loop s (it0._curr_list.size - it0._curr_list_idx + 1) (it0 :: rest) []
    else some []

/-! ## Derived notions and scenarios used in the statements -/

/-- The block content entries recorded for `height`: those in shard `height >> 24` whose key
carries the low 24 bits of `height` in its high 24 bits. -/
def block_entries (s : indexer) (height : Nat) : List (Nat × Option (List Nat)) :=
  (s.blk_htpos2ptr_map._map_arr (height >>> 24)).filter
    (fun e => decide (e.1 >>> 40 = height % 2 ^ 24))

/-- The offsets a single cursor contributes to a query result: `offset_by_tx_id` of every id
it yields, in yield order. -/
def offsets_of_iterator (s : indexer) (it : Option tx_iterator) : Option (List Int) :=
  it.bind (fun i => (i.yielded s).map (fun ids => ids.map (offset_by_tx_id s)))

/-- The blocks of heights 100, 101 and 102, added to the empty indexer. -/
def three_blocks : indexer :=
  (add_block (add_block (add_block indexer.empty 100 1 0).2 101 2 1000).2 102 3 2000).2

/-- Scenario S4: `add_addr2log(hash=1, height=100, [7, 8])` on the empty indexer. -/
def scenario_S4 : Option indexer := add_addr2log indexer.empty 1 100 [7, 8]

/-- Address 1 logged at heights 100 and 101 with four indices each (spilled lists), the
blocks being present. -/
def two_heights : Option indexer :=
  (add_addr2log three_blocks 1 100 [1, 2, 3, 4]).bind
    (fun s => add_addr2log s 1 101 [5, 6, 7, 8])

/-- Scenario S6: address `0xA` at heights 100 and 102 and topic `0xB` at heights 100 and 101,
each with indices `[1]`; tx ids `(100<<24)|1 -> 500` and `(102<<24)|1 -> 700`. -/
def scenario_S6 : Option indexer :=
  (add_addr2log indexer.empty 0xA 100 [1]).bind (fun s1 =>
  (add_addr2log s1 0xA 102 [1]).bind (fun s2 =>
  (add_topic2log s2 0xB 100 [1]).bind (fun s3 =>
  (add_topic2log s3 0xB 101 [1]).map (fun s4 =>
    (add_tx (add_tx s4 (100 <<< 24 ||| 1) 0x111 500).2 (102 <<< 24 ||| 1) 0x222 700).2))))

/-- Scenario S6 with the blocks present and every list spilled (`[1, 2, 3, 4]`). -/
def scenario_S6_spilled : Option indexer :=
  (add_addr2log three_blocks 0xA 100 [1, 2, 3, 4]).bind (fun s1 =>
  (add_addr2log s1 0xA 102 [1, 2, 3, 4]).bind (fun s2 =>
  (add_topic2log s2 0xB 100 [1, 2, 3, 4]).bind (fun s3 =>
  (add_topic2log s3 0xB 101 [1, 2, 3, 4]).map (fun s4 =>
    (add_tx (add_tx s4 (100 <<< 24 ||| 1) 0x111 500).2 (102 <<< 24 ||| 1) 0x222 700).2))))

/-- The indexer reached by `scenario_S6_spilled` (every step of it succeeds). -/
def spilled_state : indexer := scenario_S6_spilled.getD indexer.empty

/-- The inline magic as the specification words it: the OR over `i < n` of
`(indices[i] & 0xFFFFF) << (20*i)`, together with `n << 61`. -/
def inline_magic_spec (indices : List Nat) (n : Nat) : Nat :=
  (List.range n).foldl
    (fun acc i => acc ||| ((indices.getD i 0 &&& 0xFFFFF) <<< (20 * i))) 0 ||| (n <<< 61)

/-- The indexer reached by `two_heights` (every step of it succeeds). -/
def two_heights_state : indexer := two_heights.getD indexer.empty

/-- The iterator `addr_iterator(1, 100, 101)` on `two_heights_state`; its cursor holds the
entries of heights 100 and 101. -/
def two_heights_iter : tx_iterator :=
  (addr_iterator two_heights_state 1 100 101).getD ⟨⟨[], 0⟩, 0, []⟩

/-- Calling `next()` `k` times in a row. -/
def tx_iterator.next_n (s : indexer) : Nat → tx_iterator → Option tx_iterator
  | 0, it => some it
  | k + 1, it =>
    match it.next s with
    | none => none
    | some it1 => tx_iterator.next_n s k it1

/-- The iterator `two_heights_iter` after four calls of `next()`: its list is used up. -/
def two_heights_iter_end : tx_iterator :=
  (tx_iterator.next_n two_heights_state 4 two_heights_iter).getD two_heights_iter

/-- The cursors `query_tx_offsets` builds (lines 304-310), in order. -/
def query_iters (s : indexer) (q : tx_offsets_query) : Option (List tx_iterator) :=
  build_iters
    ((if q.addr_hash >>> 48 = 0 then
        [addr_iterator s q.addr_hash q.start_height q.end_height]
      else []) ++
      q.topic_hash.map (fun t => topic_iterator s t q.start_height q.end_height))

/-- The number of cursors `query_tx_offsets` builds for the query. -/
def cursor_count (q : tx_offsets_query) : Nat :=
  (if q.addr_hash >>> 48 = 0 then 1 else 0) + q.topic_hash.length

/-- The current list of the iterator lies inside the memory `data` points into: every
`data[i]` with `i < size` can be read. -/
def tx_iterator.readable (it : tx_iterator) : Bool :=
  decide (it._curr_list.size ≤ it._curr_list.data.length)

/-- The slots of a list: the first `size` elements of what `data` points at. -/
def bits24_list.slots (l : bits24_list) : List Nat := l.data.take l.size

/-- The list a stored log entry `(key, magic)` expands to: what `load_list` loads when the
map cursor stands on the entry. -/
def stored_list (s : indexer) (e : Nat × Nat) : Option bits24_list :=
  (tx_iterator.load_list s ⟨⟨[], 0⟩, 0, [e]⟩).map (fun it => it._curr_list)

/-- The slots of the list are strictly ascending and each is below `2^24`. -/
def slots_ascending (l : bits24_list) : Bool :=
  decide (l.slots.Pairwise (fun a b => a < b)) && l.slots.all (fun d => decide (d < 2 ^ 24))

/-- The index list stored for a log entry is strictly ascending with every index below
`2^24` (an entry that cannot be expanded stores no list). -/
def entry_ascending (s : indexer) (e : Nat × Nat) : Bool :=
  match stored_list s e with
  | none => true
  | some l => slots_ascending l

/-- The per-block vector of `height` as `add_to_log_map` finds it: empty when the block has
none yet. -/
def vec_of_entry (e : Nat × Option (List Nat)) : List Nat := e.2.getD []

theorem shard_mem_insert_self {V : Type} (m : List (Nat × V)) (k : Nat) (v : V) :
    (k, v) ∈ basic_map.insert m k v := by
  induction m with
  | nil => simp [basic_map.insert]
  | cons e rest ih =>
    unfold basic_map.insert
    split_ifs <;> simp [ih]

theorem shard_mem_insert_of_mem {V : Type} (m : List (Nat × V)) (k : Nat) (v : V)
    (e : Nat × V) (he : e ∈ m) (hk : e.1 ≠ k) : e ∈ basic_map.insert m k v := by
  induction m with
  | nil => simp at he
  | cons e0 rest ih =>
    unfold basic_map.insert
    rcases List.mem_cons.1 he with h | h
    · subst h
      split_ifs with h1 h2
      · simp
      · exact absurd h2.symm hk
      · simp
    · split_ifs with h1 h2
      · simp [h]
      · simp [h]
      · simp [ih h]

theorem shard_mem_of_mem_insert {V : Type} (m : List (Nat × V)) (k : Nat) (v : V)
    (hs : basic_map.sorted m) (e : Nat × V) (he : e ∈ basic_map.insert m k v) :
    e = (k, v) ∨ (e ∈ m ∧ e.1 ≠ k) := by
  induction m with
  | nil => simp [basic_map.insert] at he; exact Or.inl he
  | cons e0 rest ih =>
    have hs0 := List.pairwise_cons.1 hs
    unfold basic_map.insert at he
    split_ifs at he with h1 h2
    · rcases List.mem_cons.1 he with h | h
      · exact Or.inl h
      · right
        refine ⟨h, ?_⟩
        rcases List.mem_cons.1 h with h' | h'
        · subst h'; omega
        · have := hs0.1 e h'; omega
    · rcases List.mem_cons.1 he with h | h
      · exact Or.inl h
      · right
        have := hs0.1 e h
        exact ⟨List.mem_cons_of_mem _ h, by omega⟩
    · rcases List.mem_cons.1 he with h | h
      · right
        subst h
        exact ⟨List.mem_cons_self _ _, fun h => h2 h.symm⟩
      · rcases ih hs0.2 h with h' | h'
        · exact Or.inl h'
        · exact Or.inr ⟨List.mem_cons_of_mem _ h'.1, h'.2⟩

theorem shard_sorted_insert {V : Type} (m : List (Nat × V)) (k : Nat) (v : V)
    (hs : basic_map.sorted m) : basic_map.sorted (basic_map.insert m k v) := by
  induction m with
  | nil => simp [basic_map.insert, basic_map.sorted]
  | cons e0 rest ih =>
    have hs0 := List.pairwise_cons.1 hs
    unfold basic_map.insert
    split_ifs with h1 h2
    · refine List.pairwise_cons.2 ⟨?_, hs⟩
      intro e he
      rcases List.mem_cons.1 he with h | h
      · subst h; exact h1
      · have := hs0.1 e h
        show k < e.1
        omega
    · refine List.pairwise_cons.2 ⟨?_, hs0.2⟩
      intro e he
      have := hs0.1 e he
      show k < e.1
      omega
    · refine List.pairwise_cons.2 ⟨?_, ih hs0.2⟩
      intro e he
      rcases shard_mem_of_mem_insert rest k v hs0.2 e he with h | h
      · subst h
        show e0.1 < k
        omega
      · exact hs0.1 e h.1

theorem shard_sorted_erase {V : Type} (m : List (Nat × V)) (k : Nat)
    (hs : basic_map.sorted m) : basic_map.sorted (basic_map.erase m k) :=
  List.Pairwise.sublist (List.filter_sublist m) hs

theorem shard_get_nil {V : Type} (k1 : Nat) :
    basic_map.get ([] : List (Nat × V)) k1 = none := rfl

theorem shard_get_cons {V : Type} (e : Nat × V) (m : List (Nat × V)) (k1 : Nat) :
    basic_map.get (e :: m) k1 = if e.1 = k1 then some e.2 else basic_map.get m k1 := by
  by_cases h : e.1 = k1 <;> simp [basic_map.get, List.find?_cons, h]

theorem shard_get_insert {V : Type} (m : List (Nat × V)) (k : Nat) (v : V) (k1 : Nat) :
    basic_map.get (basic_map.insert m k v) k1 =
      if k1 = k then some v else basic_map.get m k1 := by
  induction m with
  | nil =>
    by_cases h : k = k1
    · simp [basic_map.insert, shard_get_cons, h]
    · have h' : ¬ k1 = k := fun e => h e.symm
      simp [basic_map.insert, shard_get_cons, shard_get_nil, h, h']
  | cons e0 rest ih =>
    by_cases hk : k = k1
    · subst hk
      rw [if_pos rfl] at ih ⊢
      by_cases h1 : k < e0.1
      · simp [basic_map.insert, h1, shard_get_cons]
      · by_cases h2 : k = e0.1
        · simp [basic_map.insert, h1, h2, shard_get_cons]
        · have : ¬ e0.1 = k := fun e => h2 e.symm
          simp [basic_map.insert, h1, h2, shard_get_cons, ih, this]
    · have hk' : ¬ k1 = k := fun e => hk e.symm
      rw [if_neg hk'] at ih ⊢
      by_cases h1 : k < e0.1
      · simp [basic_map.insert, h1, shard_get_cons, hk]
      · by_cases h2 : k = e0.1
        · have : ¬ e0.1 = k1 := by omega
          simp [basic_map.insert, h1, shard_get_cons, hk, this, ← h2]
        · simp [basic_map.insert, h1, h2, shard_get_cons, ih]

theorem shard_get_erase {V : Type} (m : List (Nat × V)) (k k1 : Nat) :
    basic_map.get (basic_map.erase m k) k1 = if k1 = k then none else basic_map.get m k1 := by
  induction m with
  | nil => simp [basic_map.erase, basic_map.get]
  | cons e0 rest ih =>
    simp only [basic_map.erase, basic_map.get, List.filter_cons] at ih ⊢
    by_cases h : e0.1 = k
    · by_cases h1 : k1 = k
      · simp_all
      · have : ¬ e0.1 = k1 := by omega
        simp_all
    · by_cases h1 : k1 = k
      · have : ¬ e0.1 = k1 := by omega
        simp_all
      · by_cases h2 : e0.1 = k1
        · simp_all
        · simp_all

theorem shard_not_mem_erase {V : Type} (m : List (Nat × V)) (k : Nat) (e : Nat × V)
    (he : e ∈ basic_map.erase m k) : e ∈ m ∧ e.1 ≠ k := by
  simpa [basic_map.erase] using he

theorem shard_mem_erase_of_mem {V : Type} (m : List (Nat × V)) (k : Nat) (e : Nat × V)
    (he : e ∈ m) (hk : e.1 ≠ k) : e ∈ basic_map.erase m k := by
  simp [basic_map.erase, he, hk]

/-- What `lower_bound` finds in a sorted shard: the entry with the least key `≥ k`. -/
theorem shard_lower_bound_head_some {V : Type} (m : List (Nat × V)) (k : Nat)
    (hs : basic_map.sorted m) (e : Nat × V)
    (h : (basic_map.lower_bound m k).head? = some e) :
    e ∈ m ∧ k ≤ e.1 ∧ ∀ e1 ∈ m, k ≤ e1.1 → e.1 ≤ e1.1 := by
  induction m with
  | nil => simp [basic_map.lower_bound] at h
  | cons e0 rest ih =>
    have hs0 := List.pairwise_cons.1 hs
    by_cases hlt : e0.1 < k
    · have hd : basic_map.lower_bound (e0 :: rest) k = basic_map.lower_bound rest k := by
        simp [basic_map.lower_bound, List.dropWhile_cons, hlt]
      rw [hd] at h
      obtain ⟨h1, h2, h3⟩ := ih hs0.2 h
      refine ⟨List.mem_cons_of_mem _ h1, h2, ?_⟩
      intro e1 he1 hk
      rcases List.mem_cons.1 he1 with h' | h'
      · subst h'; omega
      · exact h3 e1 h' hk
    · have hd : basic_map.lower_bound (e0 :: rest) k = e0 :: rest := by
        simp [basic_map.lower_bound, List.dropWhile_cons, hlt]
      rw [hd] at h
      simp at h
      subst h
      refine ⟨List.mem_cons_self _ _, by omega, ?_⟩
      intro e1 he1 _
      rcases List.mem_cons.1 he1 with h' | h'
      · subst h'; exact Nat.le_refl _
      · exact Nat.le_of_lt (hs0.1 e1 h')

theorem shard_lower_bound_head_none {V : Type} (m : List (Nat × V)) (k : Nat)
    (h : (basic_map.lower_bound m k).head? = none) : ∀ e1 ∈ m, e1.1 < k := by
  induction m with
  | nil => simp
  | cons e0 rest ih =>
    by_cases hlt : e0.1 < k
    · have hd : basic_map.lower_bound (e0 :: rest) k = basic_map.lower_bound rest k := by
        simp [basic_map.lower_bound, List.dropWhile_cons, hlt]
      rw [hd] at h
      intro e1 he1
      rcases List.mem_cons.1 he1 with h' | h'
      · subst h'; exact hlt
      · exact ih h e1 h'
    · have hd : basic_map.lower_bound (e0 :: rest) k = e0 :: rest := by
        simp [basic_map.lower_bound, List.dropWhile_cons, hlt]
      rw [hd] at h
      simp at h

theorem shard_get_isSome_iff {V : Type} (m : List (Nat × V)) (k : Nat) :
    (basic_map.get m k).isSome = true ↔ ∃ e ∈ m, e.1 = k := by
  simp [basic_map.get]

/-! ## Facts about the sharded map -/

theorem bigmap_insert_arr_same {V : Type} (m : bigmap V) (idx k : Nat) (v : V) :
    (m.insert idx k v)._map_arr idx = basic_map.insert (m._map_arr idx) k v := by
  simp [bigmap.insert]

theorem bigmap_insert_arr_other {V : Type} (m : bigmap V) (idx k : Nat) (v : V) (idx1 : Nat)
    (h : idx1 ≠ idx) : (m.insert idx k v)._map_arr idx1 = m._map_arr idx1 := by
  simp [bigmap.insert, Function.update_noteq h]

theorem bigmap_erase_arr_same {V : Type} (m : bigmap V) (idx k : Nat) :
    (m.erase idx k)._map_arr idx = basic_map.erase (m._map_arr idx) k := by
  simp [bigmap.erase]

theorem bigmap_erase_arr_other {V : Type} (m : bigmap V) (idx k : Nat) (idx1 : Nat)
    (h : idx1 ≠ idx) : (m.erase idx k)._map_arr idx1 = m._map_arr idx1 := by
  simp [bigmap.erase, Function.update_noteq h]

theorem bigmap_wf_empty {V : Type} : (bigmap.empty : bigmap V).wf := by
  intro idx
  exact List.Pairwise.nil

theorem bigmap_wf_insert {V : Type} (m : bigmap V) (idx k : Nat) (v : V) (h : m.wf) :
    (m.insert idx k v).wf := by
  intro idx1
  by_cases hi : idx1 = idx
  · subst hi
    rw [bigmap_insert_arr_same]
    exact shard_sorted_insert _ _ _ (h idx1)
  · rw [bigmap_insert_arr_other _ _ _ _ _ hi]
    exact h idx1

theorem bigmap_wf_erase {V : Type} (m : bigmap V) (idx k : Nat) (h : m.wf) :
    (m.erase idx k).wf := by
  intro idx1
  by_cases hi : idx1 = idx
  · subst hi
    rw [bigmap_erase_arr_same]
    exact shard_sorted_erase _ _ (h idx1)
  · rw [bigmap_erase_arr_other _ _ _ _ hi]
    exact h idx1

theorem bigmap_get_insert_same {V : Type} (m : bigmap V) (idx k : Nat) (v : V) :
    (m.insert idx k v).get idx k = some v := by
  simp [bigmap.get, bigmap_insert_arr_same, shard_get_insert]

theorem bigmap_get_insert {V : Type} (m : bigmap V) (idx k : Nat) (v : V) (idx1 k1 : Nat) :
    (m.insert idx k v).get idx1 k1 =
      if idx1 = idx ∧ k1 = k then some v else m.get idx1 k1 := by
  by_cases hi : idx1 = idx
  · subst hi
    simp [bigmap.get, bigmap_insert_arr_same, shard_get_insert]
  · simp [bigmap.get, bigmap_insert_arr_other _ _ _ _ _ hi, hi]

theorem bigmap_get_erase {V : Type} (m : bigmap V) (idx k : Nat) (idx1 k1 : Nat) :
    (m.erase idx k).get idx1 k1 = if idx1 = idx ∧ k1 = k then none else m.get idx1 k1 := by
  by_cases hi : idx1 = idx
  · subst hi
    simp [bigmap.get, bigmap_erase_arr_same, shard_get_erase]
  · simp [bigmap.get, bigmap_erase_arr_other _ _ _ _ hi, hi]

theorem bigmap_seek_some {V : Type} (m : bigmap V) (idx k : Nat) (h : m.wf) (e : Nat × V)
    (hs : m.seek idx k = some e) :
    e ∈ m._map_arr idx ∧ k ≤ e.1 ∧ ∀ e1 ∈ m._map_arr idx, k ≤ e1.1 → e.1 ≤ e1.1 :=
  shard_lower_bound_head_some _ _ (h idx) e hs

theorem bigmap_seek_none {V : Type} (m : bigmap V) (idx k : Nat)
    (hs : m.seek idx k = none) : ∀ e1 ∈ m._map_arr idx, e1.1 < k :=
  shard_lower_bound_head_none _ _ hs

/-- In a well-formed map, a key that `get` finds is the key `seek` stops at. -/
theorem bigmap_seek_of_get_isSome {V : Type} (m : bigmap V) (idx k : Nat) (h : m.wf)
    (hg : (m.get idx k).isSome = true) : ∃ e, m.seek idx k = some e ∧ e.1 = k := by
  obtain ⟨e0, he0, hk0⟩ := (shard_get_isSome_iff _ _).1 hg
  cases hs : m.seek idx k with
  | none =>
    have := bigmap_seek_none m idx k hs e0 he0
    omega
  | some e =>
    obtain ⟨_, h2, h3⟩ := bigmap_seek_some m idx k h e hs
    have := h3 e0 he0 (by omega)
    exact ⟨e, rfl, by omega⟩

/-! ## Word arithmetic used by the block index -/

theorem ht3off5_high (height : Nat) : ((height <<< 40) % 2 ^ 64) >>> 40 = height % 2 ^ 24 := by
  rw [Nat.shiftLeft_eq, Nat.shiftRight_eq_div_pow]
  norm_num
  omega

theorem ht3off5_eq (height : Nat) : (height <<< 40) % 2 ^ 64 = height % 2 ^ 24 * 2 ^ 40 := by
  rw [Nat.shiftLeft_eq]
  norm_num
  omega

theorem low40 (key : Nat) : ((key <<< 24) % 2 ^ 64) >>> 24 = key % 2 ^ 40 := by
  rw [Nat.shiftLeft_eq, Nat.shiftRight_eq_div_pow]
  norm_num
  omega

theorem lor_low40 (a b : Nat) (hb : b < 2 ^ 40) : a * 2 ^ 40 ||| b = a * 2 ^ 40 + b := by
  rw [Nat.mul_comm a, ← Nat.mul_add_lt_is_or hb]

/-- The key `add_block` inserts (line 173) for an offset inside 40 bits. -/
theorem add_block_key (height : Nat) (off : Int) (h0 : 0 ≤ off) (h1 : off < 2 ^ 40) :
    (height <<< 40) % 2 ^ 64 |||
        ((((off % ((2 ^ 64 : Nat) : Int)).toNat <<< 24) % 2 ^ 64) >>> 24) =
      height % 2 ^ 24 * 2 ^ 40 + off.toNat := by
  have h2 : (off % ((2 ^ 64 : Nat) : Int)).toNat = off.toNat := by
    rw [Int.emod_eq_of_lt h0 (by norm_num; omega)]
  have h3 : off.toNat < 2 ^ 40 := by
    have : (off.toNat : Int) = off := Int.toNat_of_nonneg h0
    norm_num at h1 ⊢
    omega
  rw [h2, low40, ht3off5_eq, Nat.mod_eq_of_lt h3, lor_low40 _ _ h3]

/-! ## The block index -/

theorem mem_block_entries (s : indexer) (height : Nat) (e : Nat × Option (List Nat)) :
    e ∈ block_entries s height ↔
      e ∈ s.blk_htpos2ptr_map._map_arr (height >>> 24) ∧ e.1 >>> 40 = height % 2 ^ 24 := by
  simp [block_entries]

theorem get_iter_at_height_some (s : indexer) (height : Nat) (hwf : s.blk_htpos2ptr_map.wf)
    (e : Nat × Option (List Nat)) (h : get_iter_at_height s height = some e) :
    e ∈ block_entries s height ∧ ∀ e1 ∈ block_entries s height, e.1 ≤ e1.1 := by
  unfold get_iter_at_height at h
  simp only at h
  cases hs : s.blk_htpos2ptr_map.seek (height >>> 24) ((height <<< 40) % 2 ^ 64) with
  | none => rw [hs] at h; simp at h
  | some e0 =>
    rw [hs] at h
    simp only at h
    split_ifs at h with hhigh
    simp only [Option.some.injEq] at h
    subst h
    obtain ⟨h1, _, h3⟩ := bigmap_seek_some _ _ _ hwf e0 hs
    rw [ht3off5_high] at hhigh
    refine ⟨(mem_block_entries s height e0).2 ⟨h1, hhigh.symm⟩, ?_⟩
    intro e1 he1
    obtain ⟨h4, h5⟩ := (mem_block_entries s height e1).1 he1
    apply h3 e1 h4
    rw [ht3off5_eq]
    rw [Nat.shiftRight_eq_div_pow] at h5
    have := Nat.div_mul_le_self e1.1 (2 ^ 40)
    rw [h5] at this
    exact this

theorem get_iter_at_height_none (s : indexer) (height : Nat) (hwf : s.blk_htpos2ptr_map.wf)
    (h : get_iter_at_height s height = none) : block_entries s height = [] := by
  rw [List.eq_nil_iff_forall_not_mem]
  intro e1 he1
  obtain ⟨h4, h5⟩ := (mem_block_entries s height e1).1 he1
  have hge : (height <<< 40) % 2 ^ 64 ≤ e1.1 := by
    rw [ht3off5_eq]
    rw [Nat.shiftRight_eq_div_pow] at h5
    have := Nat.div_mul_le_self e1.1 (2 ^ 40)
    rw [h5] at this
    exact this
  unfold get_iter_at_height at h
  simp only at h
  cases hs : s.blk_htpos2ptr_map.seek (height >>> 24) ((height <<< 40) % 2 ^ 64) with
  | none =>
    have := bigmap_seek_none _ _ _ hs e1 h4
    omega
  | some e0 =>
    rw [hs] at h
    simp only at h
    split_ifs at h with hhigh
    obtain ⟨_, h2, h3⟩ := bigmap_seek_some _ _ _ hwf e0 hs
    have h6 := h3 e1 h4 hge
    apply hhigh
    rw [ht3off5_high, ← h5]
    rw [ht3off5_eq] at h2
    simp only [Nat.shiftRight_eq_div_pow] at h5 ⊢
    norm_num at h2 h5 ⊢
    omega

/-- The lookup `get_iter_at_height` reads nothing but the block content map. -/
theorem get_iter_at_height_congr (s t : indexer) (height : Nat)
    (h : s.blk_htpos2ptr_map = t.blk_htpos2ptr_map) :
    get_iter_at_height s height = get_iter_at_height t height := by
  simp [get_iter_at_height, h]

theorem offset_by_block_height_congr (s t : indexer) (height : Nat)
    (h : s.blk_htpos2ptr_map = t.blk_htpos2ptr_map) :
    offset_by_block_height s height = offset_by_block_height t height := by
  simp [offset_by_block_height, get_iter_at_height_congr s t height h]

/-! ## Well-formedness is preserved -/

theorem indexer_wf_empty : indexer.empty.wf :=
  ⟨bigmap_wf_empty, bigmap_wf_empty, bigmap_wf_empty, bigmap_wf_empty, bigmap_wf_empty,
    bigmap_wf_empty⟩

theorem add_block_wf (s : indexer) (height hash48 : Nat) (offset40 : Int) (h : s.wf) :
    (add_block s height hash48 offset40).2.wf := by
  unfold add_block
  simp only
  split_ifs
  · exact h
  · obtain ⟨h1, h2, h3, h4, h5, h6⟩ := h
    exact ⟨bigmap_wf_insert _ _ _ _ h1, bigmap_wf_insert _ _ _ _ h2, h3, h4, h5, h6⟩

theorem erase_block_wf (s : indexer) (height hash48 : Nat) (h : s.wf) :
    (erase_block s height hash48).wf := by
  obtain ⟨h1, h2, h3, h4, h5, h6⟩ := h
  unfold erase_block
  cases get_iter_at_height s height with
  | none => exact ⟨h1, bigmap_wf_erase _ _ _ h2, h3, h4, h5, h6⟩
  | some e => exact ⟨bigmap_wf_erase _ _ _ h1, bigmap_wf_erase _ _ _ h2, h3, h4, h5, h6⟩

theorem add_tx_wf (s : indexer) (id56 hash48 : Nat) (offset40 : Int) (h : s.wf) :
    (add_tx s id56 hash48 offset40).2.wf := by
  obtain ⟨h1, h2, h3, h4, h5, h6⟩ := h
  unfold add_tx
  cases s.tx_hash2pos_map.get (hash48 >>> 32) (bits32.from_uint64 hash48) with
  | some _ => exact ⟨h1, h2, h3, h4, h5, h6⟩
  | none => exact ⟨h1, h2, bigmap_wf_insert _ _ _ _ h3, bigmap_wf_insert _ _ _ _ h4, h5, h6⟩

/-! ## The transaction iterator -/

theorem tx_iterator_valid_iff (it : tx_iterator) :
    it.valid = true ↔ it._iter ≠ [] ∧ it._curr_list_idx < it._curr_list.size := by
  unfold tx_iterator.valid bigmap.iterator.valid
  cases it._iter <;> simp

/-- On a valid iterator `next` takes the "within same height" branch. -/
theorem tx_iterator_next_of_valid (s : indexer) (it : tx_iterator) (h : it.valid = true) :
    it.next s = some { it with _curr_list_idx := it._curr_list_idx + 1 } := by
  have h2 := ((tx_iterator_valid_iff it).1 h).2
  unfold tx_iterator.next
  simp [h, h2]

theorem tx_iterator_next_of_not_valid (s : indexer) (it : tx_iterator)
    (h : it.valid = false) : it.next s = some it := by
  unfold tx_iterator.next
  simp [h]

theorem tx_iterator_collect_of_not_valid (s : indexer) (n : Nat) (it : tx_iterator)
    (h : it.valid = false) : tx_iterator.collect s n it = some [] := by
  cases n with
  | zero => rfl
  | succ n => simp [tx_iterator.collect, h]

/-- More fuel than the slots left in the current list does not change what is collected. -/
theorem tx_iterator_collect_fuel_stable (s : indexer) (n : Nat) (it : tx_iterator)
    (h : it._curr_list.size - it._curr_list_idx ≤ n) :
    tx_iterator.collect s n it = it.yielded s := by
  unfold tx_iterator.yielded
  induction n generalizing it with
  | zero =>
    have : it._curr_list.size - it._curr_list_idx = 0 := by omega
    rw [this]
  | succ n ih =>
    by_cases hv : it.valid = true
    · have h2 := ((tx_iterator_valid_iff it).1 hv).2
      obtain ⟨k, hk⟩ : ∃ k, it._curr_list.size - it._curr_list_idx = k + 1 :=
        ⟨it._curr_list.size - it._curr_list_idx - 1, by omega⟩
      rw [hk]
      have h3 := ih { it with _curr_list_idx := it._curr_list_idx + 1 } (by simp only; omega)
      have h4 : it._curr_list.size - (it._curr_list_idx + 1) = k := by omega
      simp only [h4] at h3
      cases hval : it.value with
      | none => simp [tx_iterator.collect, hv, hval]
      | some v => simp [tx_iterator.collect, hv, hval, tx_iterator_next_of_valid s it hv, h3]
    · have hv' : it.valid = false := by simpa using hv
      rw [tx_iterator_collect_of_not_valid s _ it hv',
        tx_iterator_collect_of_not_valid s _ it hv']

/-- More fuel than the slots left in `iters[i]` does not change where the catch-up loop of
line 316 stops. -/
theorem catch_up_fuel_stable (s : indexer) (it0 : tx_iterator) (n : Nat) (it : tx_iterator)
    (h : it._curr_list.size - it._curr_list_idx ≤ n) :
    catch_up s it0 n it = catch_up s it0 (it._curr_list.size - it._curr_list_idx) it := by
  induction n generalizing it with
  | zero =>
    have : it._curr_list.size - it._curr_list_idx = 0 := by omega
    rw [this]
  | succ n ih =>
    by_cases hv : it.valid = true
    · have h2 := ((tx_iterator_valid_iff it).1 hv).2
      obtain ⟨k, hk⟩ : ∃ k, it._curr_list.size - it._curr_list_idx = k + 1 :=
        ⟨it._curr_list.size - it._curr_list_idx - 1, by omega⟩
      rw [hk]
      have h3 := ih { it with _curr_list_idx := it._curr_list_idx + 1 } (by simp only; omega)
      have h4 : it._curr_list.size - (it._curr_list_idx + 1) = k := by omega
      simp only [h4] at h3
      cases hval : it.value with
      | none => simp [catch_up, hv, hval]
      | some v =>
        cases hval0 : it0.value with
        | none => simp [catch_up, hv, hval, hval0]
        | some v0 =>
          simp [catch_up, hv, hval, hval0, tx_iterator_next_of_valid s it hv, h3]
    · have hv' : it.valid = false := by simpa using hv
      cases hk : it._curr_list.size - it._curr_list_idx with
      | zero => simp [catch_up, hv']
      | succ k => simp [catch_up, hv']

/-- With a single cursor the query loop pushes the offset of every id the cursor yields. -/
theorem query_loop_single (s : indexer) (n : Nat) (it : tx_iterator) (acc : List Int)
    (h : it._curr_list.size - it._curr_list_idx ≤ n) :
    query_loop s (n + 1) [it] acc =
      (tx_iterator.collect s n it).map (fun ids => acc ++ ids.map (offset_by_tx_id s)) := by
  induction n generalizing it acc with
  | zero =>
    have hv : it.valid = false := by
      cases hv : it.valid with
      | false => rfl
      | true =>
        have h2 := ((tx_iterator_valid_iff it).1 hv).2
        omega
    simp [query_loop, catch_up_all, iters_all_valid, hv, tx_iterator.collect,
      tx_iterator_next_of_not_valid s it hv]
  | succ n ih =>
    by_cases hv : it.valid = true
    · have h2 := ((tx_iterator_valid_iff it).1 hv).2
      have h3 := ih { it with _curr_list_idx := it._curr_list_idx + 1 }
      cases hval : it.value with
      | none =>
        simp [query_loop, catch_up_all, iters_all_valid, hv, tx_iterator.collect,
          iters_value_all_equal, iters_value_equal_loop, hval]
      | some v =>
        unfold query_loop
        simp only [catch_up_all, iters_all_valid, List.all_cons, List.all_nil, Bool.and_true,
          hv, if_true, iters_value_all_equal, iters_value_equal_loop, hval, Option.map_some',
          tx_iterator_next_of_valid s it hv]
        rw [h3 (acc ++ [offset_by_tx_id s v]) (by simp only; omega)]
        simp only [tx_iterator.collect, hv, hval, tx_iterator_next_of_valid s it hv]
        cases tx_iterator.collect s n { it with _curr_list_idx := it._curr_list_idx + 1 } with
        | none => simp
        | some ids => simp
    · have hv' : it.valid = false := by simpa using hv
      simp [query_loop, catch_up_all, iters_all_valid, hv', tx_iterator.collect,
        tx_iterator_next_of_not_valid s it hv']

/-- The closed range `[k, k]` of a shard from which key `k` was erased is empty. -/
theorem shard_range_after_erase {V : Type} (m : List (Nat × V)) (k : Nat) :
    (basic_map.lower_bound (basic_map.erase m k) k).takeWhile (fun e => decide (e.1 ≤ k))
      = [] := by
  induction m with
  | nil => rfl
  | cons e0 rest ih =>
    by_cases h1 : e0.1 = k
    · have : basic_map.erase (e0 :: rest) k = basic_map.erase rest k := by
        simp [basic_map.erase, h1]
      rw [this]
      exact ih
    · have he : basic_map.erase (e0 :: rest) k = e0 :: basic_map.erase rest k := by
        simp [basic_map.erase, h1]
      rw [he]
      by_cases h2 : e0.1 < k
      · have : basic_map.lower_bound (e0 :: basic_map.erase rest k) k =
            basic_map.lower_bound (basic_map.erase rest k) k := by
          simp [basic_map.lower_bound, List.dropWhile_cons, h2]
        rw [this]
        exact ih
      · have : basic_map.lower_bound (e0 :: basic_map.erase rest k) k =
            e0 :: basic_map.erase rest k := by
          simp [basic_map.lower_bound, List.dropWhile_cons, h2]
        rw [this]
        have h3 : ¬ e0.1 ≤ k := by omega
        simp [List.takeWhile_cons, h3]

/-- The map cursor that `_iterator_at_log_map` builds (lines 148-149) over a log map from
which the entry `(hash48, height)` was erased, for the range `[height, height]`, has no
entry to stand on: it is invalid. -/
theorem cursor_after_erase (m : bigmap Nat) (hash48 height : Nat) :
    (erase_in_log_map m hash48 height).get_iterator (hash48 >>> 32) (log_key hash48 height)
      (hash48 >>> 32) (log_key hash48 height) = [] := by
  unfold erase_in_log_map bigmap.get_iterator
  simp only [if_true, bigmap_erase_arr_same, shard_range_after_erase]

/-- More fuel than the slots left in `iters[0]`, plus one, does not change the result of the
query loop. -/
theorem query_loop_fuel_stable (s : indexer) (n m : Nat) (it0 : tx_iterator)
    (rest : List tx_iterator) (acc : List Int)
    (hn : it0._curr_list.size - it0._curr_list_idx + 1 ≤ n)
    (hm : it0._curr_list.size - it0._curr_list_idx + 1 ≤ m) :
    query_loop s n (it0 :: rest) acc = query_loop s m (it0 :: rest) acc := by
  induction n generalizing m it0 rest acc with
  | zero => omega
  | succ n ih =>
    cases m with
    | zero => omega
    | succ m =>
      unfold query_loop
      cases catch_up_all s it0 rest with
      | none => rfl
      | some rest1 =>
        simp only
        by_cases hav : iters_all_valid (it0 :: rest1) = true
        · have hv : it0.valid = true := by
            simp only [iters_all_valid, List.all_cons, Bool.and_eq_true] at hav
            exact hav.1
          have h2 := ((tx_iterator_valid_iff it0).1 hv).2
          simp only [hav, if_true, tx_iterator_next_of_valid s it0 hv]
          cases iters_value_all_equal (it0 :: rest1) with
          | none => rfl
          | some found =>
            simp only
            cases found with
            | false =>
              simp only [Bool.false_eq_true, if_false]
              exact ih m _ rest1 acc (by simp only; omega) (by simp only; omega)
            | true =>
              simp only [if_true]
              cases it0.value with
              | none => rfl
              | some v =>
                simp only [Option.map_some']
                exact ih m _ rest1 _ (by simp only; omega) (by simp only; omega)
        · have hav' : iters_all_valid (it0 :: rest1) = false := by simpa using hav
          simp only [hav', Bool.false_eq_true, if_false]

/-! ## Claims about blocks and transactions -/

theorem offset_by_block_height_after_insert (s : indexer) (hwf : s.blk_htpos2ptr_map.wf)
    (height : Nat) (off : Int) (h0 : 0 ≤ off) (h1 : off < 2 ^ 40)
    (hno : ∀ e ∈ block_entries s height, off ≤ ((e.1 % 2 ^ 40 : Nat) : Int))
    (t : indexer)
    (ht : t.blk_htpos2ptr_map = s.blk_htpos2ptr_map.insert (height >>> 24)
      (height % 2 ^ 24 * 2 ^ 40 + off.toNat) none) :
    offset_by_block_height t height = off := by
  have hoff : (off.toNat : Int) = off := Int.toNat_of_nonneg h0
  have hlt : off.toNat < 2 ^ 40 := by
    norm_num at h1 ⊢
    omega
  have hwft : t.blk_htpos2ptr_map.wf := by
    rw [ht]
    exact bigmap_wf_insert _ _ _ _ hwf
  have hshard : t.blk_htpos2ptr_map._map_arr (height >>> 24) =
      basic_map.insert (s.blk_htpos2ptr_map._map_arr (height >>> 24))
        (height % 2 ^ 24 * 2 ^ 40 + off.toNat) none := by
    rw [ht, bigmap_insert_arr_same]
  have hKhigh : (height % 2 ^ 24 * 2 ^ 40 + off.toNat) >>> 40 = height % 2 ^ 24 := by
    rw [Nat.shiftRight_eq_div_pow]
    norm_num at hlt ⊢
    omega
  have hnew : ((height % 2 ^ 24 * 2 ^ 40 + off.toNat, none) : Nat × Option (List Nat)) ∈
      block_entries t height := by
    rw [mem_block_entries, hshard]
    exact ⟨shard_mem_insert_self _ _ _, hKhigh⟩
  unfold offset_by_block_height
  cases hg : get_iter_at_height t height with
  | none =>
    have := get_iter_at_height_none t height hwft hg
    rw [this] at hnew
    simp at hnew
  | some e =>
    obtain ⟨hmem, hmin⟩ := get_iter_at_height_some t height hwft e hg
    have hle := hmin _ hnew
    simp only at hle
    obtain ⟨hm1, hm2⟩ := (mem_block_entries t height e).1 hmem
    rw [hshard] at hm1
    have hkey : e.1 = height % 2 ^ 24 * 2 ^ 40 + off.toNat := by
      rcases shard_mem_of_mem_insert _ _ _ (hwf _) e hm1 with h | h
      · rw [h]
      · have h5 := hno e ((mem_block_entries s height e).2 ⟨h.1, hm2⟩)
        rw [Nat.shiftRight_eq_div_pow] at hm2
        have h6 : e.1 % 2 ^ 40 + 2 ^ 40 * (e.1 / 2 ^ 40) = e.1 := Nat.mod_add_div _ _
        rw [hm2] at h6
        have h7 : off.toNat ≤ e.1 % 2 ^ 40 := by omega
        omega
    simp only
    rw [low40, hkey]
    have : (height % 2 ^ 24 * 2 ^ 40 + off.toNat) % 2 ^ 40 = off.toNat := by
      norm_num at hlt ⊢
      omega
    rw [this, hoff]

/-- C1 (as amended): if no block content entry recorded for `height` has an offset below
`off` (in particular when no block is recorded for that height), then after an
`add_block(height, hash48, off)` that returned true, `offset_by_block_height(height)` and
`offset_by_block_hash(hash48)` both give `off`. -/
theorem add_block_then_lookup (s : indexer) (hwf : s.wf) (height hash48 : Nat) (off : Int)
    (hh : height < 2 ^ 32) (hhash : hash48 < 2 ^ 48) (h0 : 0 ≤ off) (h1 : off < 2 ^ 40)
    (hno : ∀ e ∈ block_entries s height, off ≤ ((e.1 % 2 ^ 40 : Nat) : Int))
    (hret : (add_block s height hash48 off).1 = true) :
    offset_by_block_height (add_block s height hash48 off).2 height = off ∧
      offset_by_block_hash (add_block s height hash48 off).2 hash48 = off := by
  have _ := hh
  have _ := hhash
  have hkey := add_block_key height off h0 h1
  unfold add_block at hret ⊢
  simp only at hret ⊢
  split_ifs at hret ⊢ with hc
  have hheight : offset_by_block_height
      { s with
        blk_htpos2ptr_map := s.blk_htpos2ptr_map.insert (height >>> 24)
          ((height <<< 40) % 2 ^ 64 |||
            ((((off % ((2 ^ 64 : Nat) : Int)).toNat <<< 24) % 2 ^ 64) >>> 24)) none
        blk_hash2ht_map :=
          s.blk_hash2ht_map.insert (hash48 >>> 32) (hash48 % 2 ^ 32) height } height = off := by
    apply offset_by_block_height_after_insert s hwf.1 height off h0 h1 hno
    rw [hkey]
  refine ⟨hheight, ?_⟩
  unfold offset_by_block_hash
  simp only [bigmap_get_insert_same]
  exact hheight

/-- C1, the claim as stated fails: with a block already recorded at height 100 with offset
10, `add_block(100, 2, 5000)` returns true and `offset_by_block_height(100)` is still 10. -/
theorem add_block_then_lookup_counterexample :
    (add_block indexer.empty 100 1 10).1 = true ∧
      (add_block (add_block indexer.empty 100 1 10).2 100 2 5000).1 = true ∧
      offset_by_block_height (add_block (add_block indexer.empty 100 1 10).2 100 2 5000).2 100
        = 10 := by
  decide

/-- C1, witness: scenario S1 run on an indexer that already holds blocks at heights 99 and
101. -/
theorem add_block_then_lookup_witness :
    offset_by_block_height
        (add_block (add_block (add_block indexer.empty 99 7 4000).2 101 8 6000).2
          100 0x0000123456789ABC 5000).2 100 = 5000 ∧
      offset_by_block_hash
        (add_block (add_block (add_block indexer.empty 99 7 4000).2 101 8 6000).2
          100 0x0000123456789ABC 5000).2 0x0000123456789ABC = 5000 :=
  add_block_then_lookup (add_block (add_block indexer.empty 99 7 4000).2 101 8 6000).2
    (add_block_wf _ _ _ _ (add_block_wf _ _ _ _ indexer_wf_empty))
    100 0x0000123456789ABC 5000 (by decide) (by decide) (by decide) (by decide) (by decide)
    (by decide)

/-- C2: when the block hash index already holds an entry for `hash48`, `add_block` with that
hash returns false for every height and offset and leaves the indexer as it was, so every
lookup and both log maps answer as before. -/
theorem add_block_conflict (s : indexer) (hwf : s.wf) (height hash48 : Nat) (off : Int)
    (hhash : hash48 < 2 ^ 48)
    (hheld : (s.blk_hash2ht_map.get (hash48 >>> 32) (hash48 % 2 ^ 32)).isSome = true) :
    (add_block s height hash48 off).1 = false ∧ (add_block s height hash48 off).2 = s := by
  have _ := hhash
  obtain ⟨e, he, hk⟩ := bigmap_seek_of_get_isSome _ _ _ hwf.2.1 hheld
  unfold add_block
  simp only [he, hk, decide_True, if_true, and_self]

/-- C2, witness: scenario S2, the second `add_block` with the hash of the first. -/
theorem add_block_conflict_witness :
    (add_block (add_block indexer.empty 100 0x0000123456789ABC 5000).2
        101 0x0000123456789ABC 6000).1 = false ∧
      (add_block (add_block indexer.empty 100 0x0000123456789ABC 5000).2
        101 0x0000123456789ABC 6000).2 = (add_block indexer.empty 100 0x0000123456789ABC 5000).2 :=
  add_block_conflict (add_block indexer.empty 100 0x0000123456789ABC 5000).2
    (add_block_wf _ _ _ _ indexer_wf_empty) 101 0x0000123456789ABC 6000 (by decide) (by decide)

theorem length_le_one_eq {α : Type} (l : List α) (h : l.length ≤ 1) (a b : α) (ha : a ∈ l)
    (hb : b ∈ l) : a = b := by
  match l, h with
  | [], _ => simp at ha
  | [x], _ =>
    simp at ha hb
    rw [ha, hb]

/-- C3 (as amended): in every state, after `erase_block(height, hash48)` the lookup by
`hash48` gives -1; and when the block content map held at most one entry for `height`
before the call, the lookup by that height gives -1 as well. -/
theorem erase_block_then_lookup (s : indexer) (hwf : s.wf) (height hash48 : Nat)
    (hh : height < 2 ^ 32) (hhash : hash48 < 2 ^ 48) :
    ((block_entries s height).length ≤ 1 →
        offset_by_block_height (erase_block s height hash48) height = -1) ∧
      offset_by_block_hash (erase_block s height hash48) hash48 = -1 := by
  have _ := hh
  have _ := hhash
  constructor
  · intro hone
    cases hg : get_iter_at_height s height with
    | none =>
      have hb : (erase_block s height hash48).blk_htpos2ptr_map = s.blk_htpos2ptr_map := by
        unfold erase_block
        rw [hg]
      rw [offset_by_block_height_congr _ _ height hb]
      unfold offset_by_block_height
      rw [hg]
    | some e =>
      obtain ⟨hmem, _⟩ := get_iter_at_height_some s height hwf.1 e hg
      have hb : (erase_block s height hash48).blk_htpos2ptr_map =
          ({ s with blk_htpos2ptr_map := s.blk_htpos2ptr_map.erase (height >>> 24) e.1 } :
            indexer).blk_htpos2ptr_map := by
        unfold erase_block
        rw [hg]
      rw [offset_by_block_height_congr _ _ height hb]
      unfold offset_by_block_height
      cases hg1 : get_iter_at_height
          { s with blk_htpos2ptr_map := s.blk_htpos2ptr_map.erase (height >>> 24) e.1 }
          height with
      | none => rfl
      | some e1 =>
        exfalso
        obtain ⟨hmem1, _⟩ := get_iter_at_height_some _ height
          (bigmap_wf_erase _ _ _ hwf.1) e1 hg1
        obtain ⟨hm1, hm2⟩ := (mem_block_entries _ height e1).1 hmem1
        simp only [bigmap_erase_arr_same] at hm1
        obtain ⟨hm3, hm4⟩ := shard_not_mem_erase _ _ _ hm1
        have := length_le_one_eq _ hone e1 e ((mem_block_entries s height e1).2 ⟨hm3, hm2⟩) hmem
        exact hm4 (by rw [this])
  · unfold offset_by_block_hash erase_block
    simp [bigmap_get_erase]

/-- C3, the claim as stated fails: two blocks were added at height 100 (distinct hashes,
both calls returning true); `erase_block(100, 1)` removes one entry and
`offset_by_block_height(100)` then reports the other block's offset 20. -/
theorem erase_block_then_lookup_counterexample :
    (add_block indexer.empty 100 1 10).1 = true ∧
      (add_block (add_block indexer.empty 100 1 10).2 100 2 20).1 = true ∧
      offset_by_block_height
        (erase_block (add_block (add_block indexer.empty 100 1 10).2 100 2 20).2 100 1) 100
        = 20 := by
  decide

/-- C3, witness: erasing the block of scenario S1 makes both lookups -1; in the state of
the counterexample, where two blocks stand at height 100, the lookup by the erased hash is
-1 all the same. -/
theorem erase_block_then_lookup_witness :
    (offset_by_block_height
        (erase_block (add_block indexer.empty 100 0x0000123456789ABC 5000).2
          100 0x0000123456789ABC) 100 = -1 ∧
      offset_by_block_hash
        (erase_block (add_block indexer.empty 100 0x0000123456789ABC 5000).2
          100 0x0000123456789ABC) 0x0000123456789ABC = -1) ∧
    offset_by_block_hash
      (erase_block (add_block (add_block indexer.empty 100 1 10).2 100 2 20).2 100 1) 1
      = -1 :=
  ⟨⟨(erase_block_then_lookup (add_block indexer.empty 100 0x0000123456789ABC 5000).2
        (add_block_wf _ _ _ _ indexer_wf_empty) 100 0x0000123456789ABC (by decide)
        (by decide)).1 (by decide),
      (erase_block_then_lookup (add_block indexer.empty 100 0x0000123456789ABC 5000).2
        (add_block_wf _ _ _ _ indexer_wf_empty) 100 0x0000123456789ABC (by decide)
        (by decide)).2⟩,
    (erase_block_then_lookup (add_block (add_block indexer.empty 100 1 10).2 100 2 20).2
      (add_block_wf _ _ _ _ (add_block_wf _ _ _ _ indexer_wf_empty)) 100 1 (by decide)
      (by decide)).2⟩

theorem bits40_roundtrip (off : Int) (h0 : 0 ≤ off) (h1 : off < 2 ^ 40) :
    bits40.to_int64 (bits40.from_int64 off) = off := by
  unfold bits40.to_int64 bits40.from_int64
  rw [Int.emod_eq_of_lt h0 (by norm_num; omega)]
  exact Int.toNat_of_nonneg h0

/-- C4: after an `add_tx(id56, hash48, off)` that returned true, `offset_by_tx_id(id56)` and
`offset_by_tx_hash(hash48)` both give `off`. -/
theorem add_tx_then_lookup (s : indexer) (id56 hash48 : Nat) (off : Int)
    (hid : id56 < 2 ^ 56) (hhash : hash48 < 2 ^ 48) (h0 : 0 ≤ off) (h1 : off < 2 ^ 40)
    (hret : (add_tx s id56 hash48 off).1 = true) :
    offset_by_tx_id (add_tx s id56 hash48 off).2 id56 = off ∧
      offset_by_tx_hash (add_tx s id56 hash48 off).2 hash48 = off := by
  have _ := hid
  have _ := hhash
  unfold add_tx at hret ⊢
  cases hg : s.tx_hash2pos_map.get (hash48 >>> 32) (bits32.from_uint64 hash48) with
  | some v => rw [hg] at hret; simp at hret
  | none =>
    simp only
    unfold offset_by_tx_id offset_by_tx_hash
    simp only [bigmap_get_insert_same]
    exact ⟨bits40_roundtrip off h0 h1, bits40_roundtrip off h0 h1⟩

/-- C4, witness: scenario S3 on the empty indexer. -/
theorem add_tx_then_lookup_witness :
    offset_by_tx_id (add_tx indexer.empty 0x64000001 0x0000AAAABBBBCCCC 42).2 0x64000001 = 42 ∧
      offset_by_tx_hash (add_tx indexer.empty 0x64000001 0x0000AAAABBBBCCCC 42).2
        0x0000AAAABBBBCCCC = 42 :=
  add_tx_then_lookup indexer.empty 0x64000001 0x0000AAAABBBBCCCC 42 (by decide) (by decide)
    (by decide) (by decide) (by decide)

/-- C5: `add_tx` returns false exactly when the tx hash index already holds an entry for the
key `low32(hash48)` in shard `hash48 >> 32`; and when it returns false the indexer is left as
it was, so `offset_by_tx_id` and `offset_by_tx_hash` answer as before for every argument
(`x` and `y` below). -/
theorem add_tx_conflict_iff (s : indexer) (id56 hash48 : Nat) (off : Int) (x y : Nat)
    (hid : id56 < 2 ^ 56) (hhash : hash48 < 2 ^ 48) :
    ((add_tx s id56 hash48 off).1 = false ↔
        (s.tx_hash2pos_map.get (hash48 >>> 32) (hash48 % 2 ^ 32)).isSome = true) ∧
      ((add_tx s id56 hash48 off).1 = false →
        (add_tx s id56 hash48 off).2 = s ∧
        offset_by_tx_id (add_tx s id56 hash48 off).2 x = offset_by_tx_id s x ∧
        offset_by_tx_hash (add_tx s id56 hash48 off).2 y = offset_by_tx_hash s y) := by
  have _ := hid
  have _ := hhash
  unfold add_tx
  have hb : bits32.from_uint64 hash48 = hash48 % 2 ^ 32 := rfl
  rw [hb]
  cases hg : s.tx_hash2pos_map.get (hash48 >>> 32) (hash48 % 2 ^ 32) with
  | some v => simp
  | none => simp

/-- C5, witness: a second `add_tx` with the hash of scenario S3 and another id is refused,
and the new id stays unregistered. -/
theorem add_tx_conflict_iff_witness :
    offset_by_tx_id (add_tx indexer.empty 0x64000001 0x0000AAAABBBBCCCC 42).2 0x64000002 = -1 ∧
    (((add_tx (add_tx indexer.empty 0x64000001 0x0000AAAABBBBCCCC 42).2
          0x64000002 0x0000AAAABBBBCCCC 43).1 = false ↔
        (((add_tx indexer.empty 0x64000001 0x0000AAAABBBBCCCC 42).2).tx_hash2pos_map.get
          (0x0000AAAABBBBCCCC >>> 32) (0x0000AAAABBBBCCCC % 2 ^ 32)).isSome = true) ∧
      ((add_tx (add_tx indexer.empty 0x64000001 0x0000AAAABBBBCCCC 42).2
          0x64000002 0x0000AAAABBBBCCCC 43).1 = false →
        (add_tx (add_tx indexer.empty 0x64000001 0x0000AAAABBBBCCCC 42).2
          0x64000002 0x0000AAAABBBBCCCC 43).2 =
          (add_tx indexer.empty 0x64000001 0x0000AAAABBBBCCCC 42).2 ∧
        offset_by_tx_id (add_tx (add_tx indexer.empty 0x64000001 0x0000AAAABBBBCCCC 42).2
          0x64000002 0x0000AAAABBBBCCCC 43).2 0x64000002 =
          offset_by_tx_id (add_tx indexer.empty 0x64000001 0x0000AAAABBBBCCCC 42).2 0x64000002 ∧
        offset_by_tx_hash (add_tx (add_tx indexer.empty 0x64000001 0x0000AAAABBBBCCCC 42).2
          0x64000002 0x0000AAAABBBBCCCC 43).2 0x0000AAAABBBBCCCC =
          offset_by_tx_hash (add_tx indexer.empty 0x64000001 0x0000AAAABBBBCCCC 42).2
            0x0000AAAABBBBCCCC)) :=
  ⟨by decide,
    add_tx_conflict_iff (add_tx indexer.empty 0x64000001 0x0000AAAABBBBCCCC 42).2
      0x64000002 0x0000AAAABBBBCCCC 43 0x64000002 0x0000AAAABBBBCCCC (by decide) (by decide)⟩

/-! ## Claims about the log maps, the iterator and the query -/

/-- C6, the code at the failing input (scenario S4): `add_addr2log(1, 100, [7, 8])` stores
the inline magic with tag 2, yet `addr_iterator(1, 100, 100)` is invalid from the start and
yields no id: `load_list` clears the tag (line 130) before `from_uint64` takes the size from
it (lines 138, 26), so an inline list is always loaded with size 0. -/
theorem inline_list_not_yielded :
    scenario_S4.map (fun s => s.addr_map.get 0 (log_key 1 100))
      = some (some (7 ||| 8 <<< 20 ||| 2 <<< 61)) ∧
    scenario_S4.bind (fun s => (addr_iterator s 1 100 100).map (fun it => it.valid))
      = some false ∧
    scenario_S4.bind (fun s => (addr_iterator s 1 100 100).bind (fun it => it.yielded s))
      = some [] := by
  decide

/-- C7, the code at the failing input (scenario S6): the query `{addr=0xA, topics=[0xB],
100..102}` returns the empty list, not `[500]`; it still returns the empty list when every
list is spilled, so that the cursors do yield their ids. -/
theorem query_S6_empty :
    scenario_S6.bind (fun s => query_tx_offsets s ⟨0xA, [0xB], 100, 102⟩) = some [] ∧
    scenario_S6_spilled.bind (fun s => query_tx_offsets s ⟨0xA, [0xB], 100, 102⟩) = some [] ∧
    scenario_S6_spilled.bind (fun s => offsets_of_iterator s (addr_iterator s 0xA 100 102))
      = some [500, -1, -1, -1] ∧
    scenario_S6_spilled.bind (fun s => offsets_of_iterator s (topic_iterator s 0xB 100 102))
      = some [500, -1, -1, -1] := by
  decide

/-- C8, the code at the failing input: address 1 is logged at heights 100 and 101 (spilled
lists `[1,2,3,4]` and `[5,6,7,8]`), the cursor of `addr_iterator(1, 100, 101)` holds both
entries, and the iterator yields the four ids of height 100 only. -/
theorem second_height_not_yielded :
    two_heights.bind (fun s => (addr_iterator s 1 100 101).map (fun it => it._iter.length))
      = some 2 ∧
    two_heights.bind (fun s => (addr_iterator s 1 100 101).bind (fun it => it.yielded s))
      = some [100 <<< 24 ||| 1, 100 <<< 24 ||| 2, 100 <<< 24 ||| 3, 100 <<< 24 ||| 4] ∧
    two_heights.bind (fun s => (addr_iterator s 1 101 101).bind (fun it => it.yielded s))
      = some [101 <<< 24 ||| 5, 101 <<< 24 ||| 6, 101 <<< 24 ||| 7, 101 <<< 24 ||| 8] := by
  decide

/-- C9 (as amended): a query whose `addr_hash` is not a valid hash (`addr_hash >> 48` is not
0) and which has exactly one topic `T` builds no address cursor, and its result is the list
of `offset_by_tx_id(id)` for the ids yielded by `topic_iterator(T, start_height, end_height)`
alone. -/
theorem query_single_topic (s : indexer) (q : tx_offsets_query) (T : Nat)
    (haddr : q.addr_hash >>> 48 ≠ 0) (htopic : q.topic_hash = [T]) :
    query_tx_offsets s q =
      offsets_of_iterator s (topic_iterator s T q.start_height q.end_height) := by
  unfold query_tx_offsets offsets_of_iterator
  simp only [haddr, if_false, htopic, List.map_cons, List.map_nil, List.nil_append]
  cases hit : topic_iterator s T q.start_height q.end_height with
  | none => rfl
  | some it =>
    simp only [build_iters, Option.map_some', Option.some_bind]
    by_cases hv : it.valid = true
    · simp only [iters_all_valid, List.all_cons, List.all_nil, Bool.and_true, hv, if_true]
      rw [query_loop_single s _ it [] (Nat.le_refl _)]
      simp [tx_iterator.yielded]
    · have hv' : it.valid = false := by simpa using hv
      simp only [iters_all_valid, List.all_cons, List.all_nil, Bool.and_true, hv',
        Bool.false_eq_true, if_false]
      unfold tx_iterator.yielded
      rw [tx_iterator_collect_of_not_valid s _ it hv']
      rfl

/-- C9, the claim as stated fails: with `addr_hash = 0` the address cursor is built (0 is a
valid hash for line 305), and since nothing is logged for address 0 the query returns the
empty list, while the topic cursor alone yields four ids. -/
theorem query_addr_zero_counterexample :
    scenario_S6_spilled.isSome = true ∧
    query_tx_offsets spilled_state ⟨0, [0xB], 100, 102⟩ = some [] ∧
    offsets_of_iterator spilled_state (topic_iterator spilled_state 0xB 100 102)
      = some [500, -1, -1, -1] := by
  decide

/-- C9, witness: the query of the counterexample with the address marked unused by an
`addr_hash` of `2^48`. -/
theorem query_single_topic_witness :
    query_tx_offsets spilled_state ⟨2 ^ 48, [0xB], 100, 102⟩ =
      offsets_of_iterator spilled_state (topic_iterator spilled_state 0xB 100 102) :=
  query_single_topic spilled_state ⟨2 ^ 48, [0xB], 100, 102⟩ 0xB (by decide) rfl

theorem lor_shift_add (x y k : Nat) (hx : x < 2 ^ k) : x ||| y <<< k = x + y * 2 ^ k := by
  rw [Nat.shiftLeft_eq, Nat.lor_comm, Nat.mul_comm y, ← Nat.mul_add_lt_is_or hx, Nat.add_comm]

theorem and_fffff (x : Nat) (hx : x < 2 ^ 20) : x &&& 0xFFFFF = x := by
  have h : (0xFFFFF : Nat) = 2 ^ 20 - 1 := by norm_num
  rw [h, Nat.and_pow_two_sub_one_eq_mod, Nat.mod_eq_of_lt hx]

/-- The value `compact_index_list` computes for three indices below `2^20`. -/
theorem compact_three (a b c : Nat) (ha : a < 2 ^ 20) (hb : b < 2 ^ 20) (hc : c < 2 ^ 20) :
    compact_index_list [a, b, c] 3 = a + b * 2 ^ 20 + c * 2 ^ 40 + 3 * 2 ^ 61 := by
  have e : compact_index_list [a, b, c] 3 =
      (((0 ||| a <<< (0 * 20) % 2 ^ 64) ||| b <<< (1 * 20) % 2 ^ 64) |||
        c <<< (2 * 20) % 2 ^ 64) ||| 3 <<< 61 % 2 ^ 64 := rfl
  rw [e]
  have e0 : a <<< (0 * 20) % 2 ^ 64 = a := by
    simp only [Nat.shiftLeft_eq]
    norm_num at ha ⊢
    omega
  have e1 : b <<< (1 * 20) % 2 ^ 64 = b <<< 20 := by
    simp only [Nat.shiftLeft_eq]
    norm_num at hb ⊢
    omega
  have e2 : c <<< (2 * 20) % 2 ^ 64 = c <<< 40 := by
    simp only [Nat.shiftLeft_eq]
    norm_num at hc ⊢
    omega
  have e3 : 3 <<< 61 % 2 ^ 64 = 3 <<< 61 := by decide
  rw [e0, e1, e2, e3, Nat.zero_or, lor_shift_add a b 20 ha,
    lor_shift_add (a + b * 2 ^ 20) c 40 (by norm_num at ha hb ⊢; omega),
    lor_shift_add (a + b * 2 ^ 20 + c * 2 ^ 40) 3 61 (by norm_num at ha hb hc ⊢; omega)]

theorem compact_two (a b : Nat) (ha : a < 2 ^ 20) (hb : b < 2 ^ 20) :
    compact_index_list [a, b] 2 = a + b * 2 ^ 20 + 2 * 2 ^ 61 := by
  have e : compact_index_list [a, b] 2 =
      ((0 ||| a <<< (0 * 20) % 2 ^ 64) ||| b <<< (1 * 20) % 2 ^ 64) ||| 2 <<< 61 % 2 ^ 64 := rfl
  rw [e]
  have e0 : a <<< (0 * 20) % 2 ^ 64 = a := by
    simp only [Nat.shiftLeft_eq]
    norm_num at ha ⊢
    omega
  have e1 : b <<< (1 * 20) % 2 ^ 64 = b <<< 20 := by
    simp only [Nat.shiftLeft_eq]
    norm_num at hb ⊢
    omega
  have e3 : 2 <<< 61 % 2 ^ 64 = 2 <<< 61 := by decide
  rw [e0, e1, e3, Nat.zero_or, lor_shift_add a b 20 ha,
    lor_shift_add (a + b * 2 ^ 20) 2 61 (by norm_num at ha hb ⊢; omega)]

theorem compact_one (a : Nat) (ha : a < 2 ^ 20) :
    compact_index_list [a] 1 = a + 1 * 2 ^ 61 := by
  have e : compact_index_list [a] 1 =
      (0 ||| a <<< (0 * 20) % 2 ^ 64) ||| 1 <<< 61 % 2 ^ 64 := rfl
  rw [e]
  have e0 : a <<< (0 * 20) % 2 ^ 64 = a := by
    simp only [Nat.shiftLeft_eq]
    norm_num at ha ⊢
    omega
  have e3 : 1 <<< 61 % 2 ^ 64 = 1 <<< 61 := by decide
  rw [e0, e3, Nat.zero_or, lor_shift_add a 1 61 (by norm_num at ha ⊢; omega)]

theorem spec_three (a b c : Nat) (ha : a < 2 ^ 20) (hb : b < 2 ^ 20) (hc : c < 2 ^ 20) :
    inline_magic_spec [a, b, c] 3 = a + b * 2 ^ 20 + c * 2 ^ 40 + 3 * 2 ^ 61 := by
  have e : inline_magic_spec [a, b, c] 3 =
      (((0 ||| (a &&& 0xFFFFF) <<< (20 * 0)) ||| (b &&& 0xFFFFF) <<< (20 * 1)) |||
        (c &&& 0xFFFFF) <<< (20 * 2)) ||| 3 <<< 61 := rfl
  rw [e, and_fffff a ha, and_fffff b hb, and_fffff c hc]
  have e0 : a <<< (20 * 0) = a := by simp
  rw [e0, Nat.zero_or, lor_shift_add a b (20 * 1) ha,
    lor_shift_add (a + b * 2 ^ (20 * 1)) c (20 * 2) (by norm_num at ha hb ⊢; omega),
    lor_shift_add (a + b * 2 ^ (20 * 1) + c * 2 ^ (20 * 2)) 3 61
      (by norm_num at ha hb hc ⊢; omega)]

theorem spec_two (a b : Nat) (ha : a < 2 ^ 20) (hb : b < 2 ^ 20) :
    inline_magic_spec [a, b] 2 = a + b * 2 ^ 20 + 2 * 2 ^ 61 := by
  have e : inline_magic_spec [a, b] 2 =
      ((0 ||| (a &&& 0xFFFFF) <<< (20 * 0)) ||| (b &&& 0xFFFFF) <<< (20 * 1)) ||| 2 <<< 61 := rfl
  rw [e, and_fffff a ha, and_fffff b hb]
  have e0 : a <<< (20 * 0) = a := by simp
  rw [e0, Nat.zero_or, lor_shift_add a b (20 * 1) ha,
    lor_shift_add (a + b * 2 ^ (20 * 1)) 2 61 (by norm_num at ha hb ⊢; omega)]

theorem spec_one (a : Nat) (ha : a < 2 ^ 20) :
    inline_magic_spec [a] 1 = a + 1 * 2 ^ 61 := by
  have e : inline_magic_spec [a] 1 = (0 ||| (a &&& 0xFFFFF) <<< (20 * 0)) ||| 1 <<< 61 := rfl
  rw [e, and_fffff a ha]
  have e0 : a <<< (20 * 0) = a := by simp
  rw [e0, Nat.zero_or, lor_shift_add a 1 61 (by norm_num at ha ⊢; omega)]

/-- C13 (as amended): for every list of `n ≤ 3` indices each below `2^20`, the inline magic
computed by `compact_index_list` equals the OR over `i < n` of
`(indices[i] & 0xFFFFF) << (20*i)` together with `n << 61`; its high 3 bits equal `n` and
the 20-bit field at bits `[20i, 20i+20)` is `indices[i]`. -/
theorem compact_index_list_inline (xs : List Nat) (i : Nat) (hn : xs.length ≤ 3)
    (hx : ∀ x ∈ xs, x < 2 ^ 20) :
    compact_index_list xs xs.length = inline_magic_spec xs xs.length ∧
      compact_index_list xs xs.length >>> 61 = xs.length ∧
      (i < xs.length →
        (compact_index_list xs xs.length >>> (20 * i)) % 2 ^ 20 = xs.getD i 0) := by
  match xs, hn, hx with
  | [], _, _ => exact ⟨rfl, rfl, fun h => absurd h (by simp)⟩
  | [a], _, hx =>
    have ha : a < 2 ^ 20 := hx a (by simp)
    simp only [List.length_singleton]
    rw [compact_one a ha, spec_one a ha]
    refine ⟨rfl, ?_, ?_⟩
    · rw [Nat.shiftRight_eq_div_pow]
      norm_num at ha ⊢
      omega
    · intro hi
      have : i = 0 := by omega
      subst this
      simp only [Nat.mul_zero, Nat.shiftRight_zero, List.getD_cons_zero]
      norm_num at ha ⊢
      omega
  | [a, b], _, hx =>
    have ha : a < 2 ^ 20 := hx a (by simp)
    have hb : b < 2 ^ 20 := hx b (by simp)
    simp only [List.length_cons, List.length_nil]
    rw [compact_two a b ha hb, spec_two a b ha hb]
    refine ⟨rfl, ?_, ?_⟩
    · rw [Nat.shiftRight_eq_div_pow]
      norm_num at ha hb ⊢
      omega
    · intro hi
      have : i = 0 ∨ i = 1 := by omega
      rcases this with h | h <;> subst h
      · simp only [Nat.mul_zero, Nat.shiftRight_zero, List.getD_cons_zero]
        norm_num at ha hb ⊢
        omega
      · simp only [Nat.shiftRight_eq_div_pow, List.getD_cons_succ, List.getD_cons_zero]
        norm_num at ha hb ⊢
        omega
  | [a, b, c], _, hx =>
    have ha : a < 2 ^ 20 := hx a (by simp)
    have hb : b < 2 ^ 20 := hx b (by simp)
    have hc : c < 2 ^ 20 := hx c (by simp)
    simp only [List.length_cons, List.length_nil]
    rw [compact_three a b c ha hb hc, spec_three a b c ha hb hc]
    refine ⟨rfl, ?_, ?_⟩
    · rw [Nat.shiftRight_eq_div_pow]
      norm_num at ha hb hc ⊢
      omega
    · intro hi
      have : i = 0 ∨ i = 1 ∨ i = 2 := by omega
      rcases this with h | h | h <;> subst h
      · simp only [Nat.mul_zero, Nat.shiftRight_zero, List.getD_cons_zero]
        norm_num at ha hb hc ⊢
        omega
      · simp only [Nat.shiftRight_eq_div_pow, List.getD_cons_succ, List.getD_cons_zero]
        norm_num at ha hb hc ⊢
        omega
      · simp only [Nat.shiftRight_eq_div_pow, List.getD_cons_succ, List.getD_cons_zero]
        norm_num at ha hb hc ⊢
        omega
  | _ :: _ :: _ :: _ :: _, hn, _ => simp at hn

/-- C13, the claim as stated fails: the code does not mask the indices. For the single
index `2^20` the stored magic has bit 20 set where the masked OR has none, and for
`[0, 0, 2^23]` the third index reaches bit 63, so the high 3 bits read 7, not 3. -/
theorem compact_index_list_inline_counterexample :
    compact_index_list [2 ^ 20] 1 = 2 ^ 20 + 2 ^ 61 ∧
      inline_magic_spec [2 ^ 20] 1 = 2 ^ 61 ∧
      compact_index_list [0, 0, 2 ^ 23] 3 >>> 61 = 7 := by
  decide

/-- C13, witness: three indices using the full 20 bits. -/
theorem compact_index_list_inline_witness :
    compact_index_list [0xFFFFF, 7, 0xFFFFF] [0xFFFFF, 7, 0xFFFFF].length =
        inline_magic_spec [0xFFFFF, 7, 0xFFFFF] [0xFFFFF, 7, 0xFFFFF].length ∧
      compact_index_list [0xFFFFF, 7, 0xFFFFF] [0xFFFFF, 7, 0xFFFFF].length >>> 61 =
        [0xFFFFF, 7, 0xFFFFF].length ∧
      (1 < [0xFFFFF, 7, 0xFFFFF].length →
        (compact_index_list [0xFFFFF, 7, 0xFFFFF] [0xFFFFF, 7, 0xFFFFF].length >>> (20 * 1))
          % 2 ^ 20 = [0xFFFFF, 7, 0xFFFFF].getD 1 0) :=
  compact_index_list_inline [0xFFFFF, 7, 0xFFFFF] 1 (by decide) (by decide)

/-- C14, the code at the failing input: decoding the magic of `[0xFFFFF, 0xFFFFF]` gives
size 2 but element 0 is `0xFFFFFF`, because `bits24::from_uint64(u >> (i*20))` keeps 24 bits
and so takes in the low 4 bits of the next field; for `[1, 2, 3]` every element is wrong
(element 2 also takes in the tag bits). -/
theorem inline_roundtrip_fails :
    bits24_list.from_uint64 (compact_index_list [0xFFFFF, 0xFFFFF] 2)
        = some ⟨[0xFFFFFF, 0xFFFFF], 2⟩ ∧
      bits24_list.from_uint64 (compact_index_list [1, 2, 3] 3)
        = some ⟨[1 + 2 * 2 ^ 20, 2 + 3 * 2 ^ 20, 3 + 3 * 2 ^ 21], 3⟩ ∧
      bits24_list.from_uint64 (compact_index_list [5] 1) = some ⟨[5], 1⟩ := by
  decide

/-! ## Claims about single cursors -/

/-- C15: a query with a valid `addr_hash` (below `2^48`) and no topic returns exactly one
entry per id yielded by `addr_iterator(addr_hash, start_height, end_height)`, in yield order,
each entry being `offset_by_tx_id(id)`; an id without a tx-id mapping contributes -1. -/
theorem query_single_addr (s : indexer) (q : tx_offsets_query) (id56 : Nat)
    (haddr : q.addr_hash < 2 ^ 48) (htopic : q.topic_hash = []) :
    query_tx_offsets s q =
        (addr_iterator s q.addr_hash q.start_height q.end_height).bind
          (fun it => (it.yielded s).map (fun ids => ids.map (offset_by_tx_id s))) ∧
      (s.tx_id2pos_map.get (id56 >>> 40) (bits40.from_uint64 id56) = none →
        offset_by_tx_id s id56 = -1) := by
  have h48 : q.addr_hash >>> 48 = 0 := by
    rw [Nat.shiftRight_eq_div_pow]
    exact Nat.div_eq_of_lt haddr
  constructor
  · unfold query_tx_offsets
    simp only [h48, if_true, htopic, List.map_nil, List.append_nil]
    cases hit : addr_iterator s q.addr_hash q.start_height q.end_height with
    | none => rfl
    | some it =>
      simp only [build_iters, Option.map_some', Option.some_bind]
      by_cases hv : it.valid = true
      · simp only [iters_all_valid, List.all_cons, List.all_nil, Bool.and_true, hv, if_true]
        rw [query_loop_single s _ it [] (Nat.le_refl _)]
        simp [tx_iterator.yielded]
      · have hv' : it.valid = false := by simpa using hv
        simp only [iters_all_valid, List.all_cons, List.all_nil, Bool.and_true, hv',
          Bool.false_eq_true, if_false]
        unfold tx_iterator.yielded
        rw [tx_iterator_collect_of_not_valid s _ it hv']
        rfl
  · intro hnone
    unfold offset_by_tx_id
    rw [hnone]

/-- C15, witness: address `0xA` alone over heights 100..102 in `spilled_state`; the id
`(100<<24)|2` has no tx-id mapping. -/
theorem query_single_addr_witness :
    (query_tx_offsets spilled_state ⟨0xA, [], 100, 102⟩ = some [500, -1, -1, -1] ∧
      (addr_iterator spilled_state 0xA 100 102).bind (fun it => it.yielded spilled_state) =
        some [100 <<< 24 ||| 1, 100 <<< 24 ||| 2, 100 <<< 24 ||| 3, 100 <<< 24 ||| 4]) ∧
    (query_tx_offsets spilled_state ⟨0xA, [], 100, 102⟩ =
        (addr_iterator spilled_state 0xA 100 102).bind
          (fun it => (it.yielded spilled_state).map
            (fun ids => ids.map (offset_by_tx_id spilled_state))) ∧
      (spilled_state.tx_id2pos_map.get ((100 <<< 24 ||| 2) >>> 40)
          (bits40.from_uint64 (100 <<< 24 ||| 2)) = none →
        offset_by_tx_id spilled_state (100 <<< 24 ||| 2) = -1)) :=
  ⟨by decide,
    query_single_addr spilled_state ⟨0xA, [], 100, 102⟩ (100 <<< 24 ||| 2) (by decide) rfl⟩

theorem id56_height (h d : Nat) (hd : d < 2 ^ 24) : (h <<< 24 ||| d) >>> 24 = h := by
  rw [Nat.lor_comm, lor_shift_add d h 24 hd, Nat.shiftRight_eq_div_pow]
  norm_num at hd ⊢
  omega

theorem tx_iterator_value_height (it : tx_iterator) (hv : it.valid = true) (v : Nat)
    (hd : ∀ d ∈ it._curr_list.data, d < 2 ^ 24) (hval : it.value = some v) :
    v >>> 24 = bigmap.iterator.key it._iter % 2 ^ 32 := by
  unfold tx_iterator.value at hval
  simp only [hv, Bool.true_eq_false, if_false] at hval
  cases hget : it._curr_list.data[it._curr_list_idx]? with
  | none => rw [hget] at hval; simp at hval
  | some d =>
    rw [hget] at hval
    simp only [Option.some.injEq] at hval
    rw [← hval]
    exact id56_height _ _ (hd d (List.getElem?_mem hget))

/-- Every id collected from an iterator carries the height of the entry its cursor stands
on, and there are at most as many as slots left in the current list. -/
theorem tx_iterator_collect_same_height (s : indexer) (n : Nat) (it : tx_iterator)
    (hd : ∀ d ∈ it._curr_list.data, d < 2 ^ 24) (ids : List Nat)
    (h : tx_iterator.collect s n it = some ids) :
    ids.length ≤ it._curr_list.size - it._curr_list_idx ∧
      ∀ id ∈ ids, id >>> 24 = bigmap.iterator.key it._iter % 2 ^ 32 := by
  induction n generalizing it ids with
  | zero =>
    simp only [tx_iterator.collect, Option.some.injEq] at h
    subst h
    simp
  | succ n ih =>
    by_cases hv : it.valid = true
    · have h2 := ((tx_iterator_valid_iff it).1 hv).2
      cases hval : it.value with
      | none => simp [tx_iterator.collect, hv, hval] at h
      | some v =>
        simp only [tx_iterator.collect, hv, hval, tx_iterator_next_of_valid s it hv,
          Bool.true_eq_false, if_false] at h
        cases hc : tx_iterator.collect s n
            { it with _curr_list_idx := it._curr_list_idx + 1 } with
        | none => rw [hc] at h; simp at h
        | some rest =>
          rw [hc] at h
          simp only [Option.map_some', Option.some.injEq] at h
          subst h
          obtain ⟨h3, h4⟩ := ih { it with _curr_list_idx := it._curr_list_idx + 1 } hd rest hc
          simp only at h3 h4
          refine ⟨by simp only [List.length_cons]; omega, ?_⟩
          intro id hid
          rcases List.mem_cons.1 hid with h5 | h5
          · rw [h5]
            exact tx_iterator_value_height it hv v hd hval
          · exact h4 id h5
    · have hv' : it.valid = false := by simpa using hv
      rw [tx_iterator_collect_of_not_valid s _ it hv'] at h
      simp only [Option.some.injEq] at h
      subst h
      simp

theorem tx_iterator_next_n_of_not_valid (s : indexer) (k : Nat) (it : tx_iterator)
    (hv : it.valid = false) : tx_iterator.next_n s k it = some it := by
  induction k with
  | zero => rfl
  | succ k ih =>
    simp only [tx_iterator.next_n, tx_iterator_next_of_not_valid s it hv]
    exact ih

/-- However often `next()` is called, the map cursor and the current list stay what they
were; only the list index can grow. -/
theorem tx_iterator_next_n_same_cursor (s : indexer) (k : Nat) (it : tx_iterator) :
    ∃ itk, tx_iterator.next_n s k it = some itk ∧ itk._iter = it._iter ∧
      itk._curr_list = it._curr_list ∧ it._curr_list_idx ≤ itk._curr_list_idx := by
  induction k generalizing it with
  | zero => exact ⟨it, rfl, rfl, rfl, Nat.le_refl _⟩
  | succ k ih =>
    by_cases hv : it.valid = true
    · obtain ⟨itk, h1, h2, h3, h4⟩ := ih { it with _curr_list_idx := it._curr_list_idx + 1 }
      refine ⟨itk, ?_, h2, h3, ?_⟩
      · simp only [tx_iterator.next_n, tx_iterator_next_of_valid s it hv]
        exact h1
      · simp only at h4
        omega
    · have hv' : it.valid = false := by simpa using hv
      exact ⟨it, tx_iterator_next_n_of_not_valid s _ it hv', rfl, rfl, Nat.le_refl _⟩

/-- C18: `tx_iterator::next` never advances the underlying log-map cursor. On a valid
iterator it only increments the list index; on an invalid one it returns at once and
changes nothing, so an iterator that is invalid stays invalid however often `next()` is
called; after any number of calls the cursor and the current list are the ones of
construction. Hence all the ids an iterator yields carry the height of the one log entry its
cursor stands on (the `bits24` slots being below `2^24`), and their number is at most that
entry's list size. -/
theorem next_never_advances (s : indexer) (it : tx_iterator) (k : Nat) (ids : List Nat)
    (id : Nat) :
    (it.valid = true →
        it.next s = some { it with _curr_list_idx := it._curr_list_idx + 1 }) ∧
      (it.valid = false → it.next s = some it ∧ tx_iterator.next_n s k it = some it) ∧
      (∃ itk, tx_iterator.next_n s k it = some itk ∧ itk._iter = it._iter ∧
        itk._curr_list = it._curr_list ∧ it._curr_list_idx ≤ itk._curr_list_idx) ∧
      ((∀ d ∈ it._curr_list.data, d < 2 ^ 24) → it.yielded s = some ids →
        ids.length ≤ it._curr_list.size ∧
        (id ∈ ids → id >>> 24 = bigmap.iterator.key it._iter % 2 ^ 32)) := by
  refine ⟨fun hv => tx_iterator_next_of_valid s it hv,
    fun hv => ⟨tx_iterator_next_of_not_valid s it hv,
      tx_iterator_next_n_of_not_valid s k it hv⟩,
    tx_iterator_next_n_same_cursor s k it, ?_⟩
  intro hd hy
  obtain ⟨h1, h2⟩ := tx_iterator_collect_same_height s _ it hd ids hy
  exact ⟨by omega, fun hid => h2 id hid⟩

/-- C18, witness: the iterator over heights 100..101 of `two_heights_state`, whose cursor
holds two entries, is valid, yields four ids, all of height 100, and after five calls of
`next()` still has its two-entry cursor; the used-up iterator `two_heights_iter_end` is
invalid with the same cursor, and `next()`, once or five times, returns it unchanged. -/
theorem next_never_advances_witness :
    (two_heights_iter._iter.length = 2 ∧
      bigmap.iterator.key two_heights_iter._iter % 2 ^ 32 = 100 ∧
      two_heights_iter.valid = true ∧
      two_heights_iter_end._iter.length = 2 ∧ two_heights_iter_end.valid = false) ∧
    (two_heights_iter.next two_heights_state =
        some { two_heights_iter with _curr_list_idx := two_heights_iter._curr_list_idx + 1 } ∧
      (∃ itk, tx_iterator.next_n two_heights_state 5 two_heights_iter = some itk ∧
        itk._iter = two_heights_iter._iter ∧
        itk._curr_list = two_heights_iter._curr_list ∧
        two_heights_iter._curr_list_idx ≤ itk._curr_list_idx) ∧
      [100 <<< 24 ||| 1, 100 <<< 24 ||| 2, 100 <<< 24 ||| 3, 100 <<< 24 ||| 4].length ≤
        two_heights_iter._curr_list.size ∧
      (100 <<< 24 ||| 3) >>> 24 = bigmap.iterator.key two_heights_iter._iter % 2 ^ 32) ∧
    (two_heights_iter_end.next two_heights_state = some two_heights_iter_end ∧
      tx_iterator.next_n two_heights_state 5 two_heights_iter_end =
        some two_heights_iter_end) :=
  ⟨by decide,
    ⟨(next_never_advances two_heights_state two_heights_iter 5
        [100 <<< 24 ||| 1, 100 <<< 24 ||| 2, 100 <<< 24 ||| 3, 100 <<< 24 ||| 4]
        (100 <<< 24 ||| 3)).1 (by decide),
      (next_never_advances two_heights_state two_heights_iter 5
        [100 <<< 24 ||| 1, 100 <<< 24 ||| 2, 100 <<< 24 ||| 3, 100 <<< 24 ||| 4]
        (100 <<< 24 ||| 3)).2.2.1,
      ((next_never_advances two_heights_state two_heights_iter 5
        [100 <<< 24 ||| 1, 100 <<< 24 ||| 2, 100 <<< 24 ||| 3, 100 <<< 24 ||| 4]
        (100 <<< 24 ||| 3)).2.2.2 (by decide) (by decide)).1,
      ((next_never_advances two_heights_state two_heights_iter 5
        [100 <<< 24 ||| 1, 100 <<< 24 ||| 2, 100 <<< 24 ||| 3, 100 <<< 24 ||| 4]
        (100 <<< 24 ||| 3)).2.2.2 (by decide) (by decide)).2 (by decide)⟩,
    (next_never_advances two_heights_state two_heights_iter_end 5 [] 0).2.1 (by decide)⟩

/-! ## The frame of `add_block` -/

theorem shard_filter_insert {V : Type} (p : Nat → Bool) (m : List (Nat × V)) (k : Nat) (v : V)
    (hp : p k = false) :
    (basic_map.insert m k v).filter (fun e => p e.1) = m.filter (fun e => p e.1) := by
  induction m with
  | nil => simp [basic_map.insert, hp]
  | cons e0 rest ih =>
    unfold basic_map.insert
    split_ifs with h1 h2
    · simp [List.filter_cons, hp]
    · have : p e0.1 = false := by rw [← h2]; exact hp
      simp [List.filter_cons, hp, this]
    · simp only [List.filter_cons, ih]

theorem block_entries_sorted (s : indexer) (height : Nat) (hwf : s.blk_htpos2ptr_map.wf) :
    basic_map.sorted (block_entries s height) :=
  List.Pairwise.sublist (List.filter_sublist _) (hwf _)

/-- In a well-formed indexer `get_iter_at_height` returns the first block content entry
recorded for the height. -/
theorem get_iter_at_height_eq_head (s : indexer) (height : Nat)
    (hwf : s.blk_htpos2ptr_map.wf) :
    get_iter_at_height s height = (block_entries s height).head? := by
  cases hg : get_iter_at_height s height with
  | none => rw [get_iter_at_height_none s height hwf hg]; rfl
  | some e =>
    obtain ⟨hmem, hmin⟩ := get_iter_at_height_some s height hwf e hg
    have hs := block_entries_sorted s height hwf
    cases hb : block_entries s height with
    | nil => rw [hb] at hmem; simp at hmem
    | cons e0 rest =>
      rw [hb] at hmem hmin hs
      simp only [List.head?_cons, Option.some.injEq]
      rcases List.mem_cons.1 hmem with h | h
      · exact h
      · have h1 := (List.pairwise_cons.1 hs).1 e h
        have h2 := hmin e0 (List.mem_cons_self _ _)
        omega

theorem height_split (h h1 : Nat) (hne : h1 ≠ h) :
    h1 >>> 24 ≠ h >>> 24 ∨ h1 % 2 ^ 24 ≠ h % 2 ^ 24 := by
  simp only [Nat.shiftRight_eq_div_pow]
  norm_num
  omega

/-- Inserting a block content key of height `h` leaves the entries recorded for any other
height as they were. -/
theorem block_entries_insert_other (s t : indexer) (h h1 key : Nat) (v : Option (List Nat))
    (hne : h1 ≠ h) (hkey : key >>> 40 = h % 2 ^ 24)
    (ht : t.blk_htpos2ptr_map = s.blk_htpos2ptr_map.insert (h >>> 24) key v) :
    block_entries t h1 = block_entries s h1 := by
  unfold block_entries
  rw [ht]
  by_cases hsh : h1 >>> 24 = h >>> 24
  · rw [hsh, bigmap_insert_arr_same]
    have hmod : h1 % 2 ^ 24 ≠ h % 2 ^ 24 := by
      rcases height_split h h1 hne with h2 | h2
      · exact absurd hsh h2
      · exact h2
    exact shard_filter_insert (fun k => decide (k >>> 40 = h1 % 2 ^ 24)) _ key v
      (by simp only [decide_eq_false_iff_not]; rw [hkey]; exact fun e => hmod e.symm)
  · rw [bigmap_insert_arr_other _ _ _ _ _ hsh]

theorem add_block_key_high (height : Nat) (off : Int) :
    ((height <<< 40) % 2 ^ 64 |||
        ((((off % ((2 ^ 64 : Nat) : Int)).toNat <<< 24) % 2 ^ 64) >>> 24)) >>> 40 =
      height % 2 ^ 24 := by
  rw [low40, ht3off5_eq, lor_low40 _ _ (Nat.mod_lt _ (by norm_num)), Nat.shiftRight_eq_div_pow]
  have := Nat.mod_lt ((off % ((2 ^ 64 : Nat) : Int)).toNat) (show 0 < 2 ^ 40 by norm_num)
  generalize (off % ((2 ^ 64 : Nat) : Int)).toNat % 2 ^ 40 = r at this ⊢
  norm_num at this ⊢
  omega

/-- C19: `add_block(h, hash48, off)` leaves `offset_by_block_height(h1)` as it was for every
other height `h1`, whether or not the call succeeded: the seek for `h1 << 40` finds the same
entry before and after. `offset_by_tx_id` and `offset_by_tx_hash` are unchanged for every
argument (`x` and `y` below). -/
theorem add_block_frame (s : indexer) (hwf : s.wf) (h h1 hash48 : Nat) (off : Int)
    (x y : Nat) (hh : h < 2 ^ 32) (hh1 : h1 < 2 ^ 32) (hhash : hash48 < 2 ^ 48)
    (hne : h1 ≠ h) :
    offset_by_block_height (add_block s h hash48 off).2 h1 = offset_by_block_height s h1 ∧
      get_iter_at_height (add_block s h hash48 off).2 h1 = get_iter_at_height s h1 ∧
      offset_by_tx_id (add_block s h hash48 off).2 x = offset_by_tx_id s x ∧
      offset_by_tx_hash (add_block s h hash48 off).2 y = offset_by_tx_hash s y := by
  have _ := hh
  have _ := hh1
  have _ := hhash
  have hiter : get_iter_at_height (add_block s h hash48 off).2 h1 = get_iter_at_height s h1 := by
    rw [get_iter_at_height_eq_head _ h1 (add_block_wf s h hash48 off hwf).1,
      get_iter_at_height_eq_head s h1 hwf.1]
    unfold add_block
    simp only
    split_ifs
    · rfl
    · rw [block_entries_insert_other s _ h h1 _ none hne (add_block_key_high h off) rfl]
  refine ⟨?_, hiter, ?_, ?_⟩
  · unfold offset_by_block_height
    rw [hiter]
  · unfold add_block offset_by_tx_id
    simp only
    split_ifs <;> rfl
  · unfold add_block offset_by_tx_hash
    simp only
    split_ifs <;> rfl

/-- C19, witness: adding a block at height 101 to an indexer holding blocks at heights 100
and 102 (same shard) leaves the lookup of height 100 at its offset. -/
theorem add_block_frame_witness :
    offset_by_block_height (add_block indexer.empty 100 1 77).2 100 = 77 ∧
    (offset_by_block_height
        (add_block (add_block indexer.empty 100 1 77).2 101 2 5).2 100 =
        offset_by_block_height (add_block indexer.empty 100 1 77).2 100 ∧
      get_iter_at_height (add_block (add_block indexer.empty 100 1 77).2 101 2 5).2 100 =
        get_iter_at_height (add_block indexer.empty 100 1 77).2 100 ∧
      offset_by_tx_id (add_block (add_block indexer.empty 100 1 77).2 101 2 5).2 3 =
        offset_by_tx_id (add_block indexer.empty 100 1 77).2 3 ∧
      offset_by_tx_hash (add_block (add_block indexer.empty 100 1 77).2 101 2 5).2 4 =
        offset_by_tx_hash (add_block indexer.empty 100 1 77).2 4) :=
  ⟨by decide,
    add_block_frame (add_block indexer.empty 100 1 77).2
      (add_block_wf _ _ _ _ indexer_wf_empty) 101 100 2 5 3 4 (by decide) (by decide)
      (by decide) (by decide)⟩

/-! ## Queries with two or more cursors -/

/-- Where the catch-up loop of line 316 leaves cursor `i`: invalid, or strictly above
cursor 0. -/
theorem catch_up_result (s : indexer) (it0 : tx_iterator) (n : Nat) (it it1 : tx_iterator)
    (hn : it._curr_list.size - it._curr_list_idx ≤ n)
    (h : catch_up s it0 n it = some it1) :
    it1.valid = false ∨ ∃ a b, it1.value = some a ∧ it0.value = some b ∧ b < a := by
  induction n generalizing it with
  | zero =>
    simp only [catch_up, Option.some.injEq] at h
    subst h
    left
    cases hv : it.valid with
    | false => rfl
    | true =>
      have h2 := ((tx_iterator_valid_iff it).1 hv).2
      omega
  | succ n ih =>
    by_cases hv : it.valid = true
    · have h2 := ((tx_iterator_valid_iff it).1 hv).2
      cases hval : it.value with
      | none => simp [catch_up, hv, hval] at h
      | some a =>
        cases hval0 : it0.value with
        | none => simp [catch_up, hv, hval, hval0] at h
        | some b =>
          simp only [catch_up, hv, hval, hval0, Bool.true_eq_false, if_false,
            tx_iterator_next_of_valid s it hv] at h
          by_cases hab : a ≤ b
          · simp only [hab, if_true] at h
            rcases ih _ (by simp only; omega) h with h3 | ⟨a1, b1, h3, h4, h5⟩
            · exact Or.inl h3
            · rw [hval0] at h4
              exact Or.inr ⟨a1, b1, h3, h4, h5⟩
          · simp only [hab, if_false, Option.some.injEq] at h
            subst h
            exact Or.inr ⟨a, b, hval, rfl, by omega⟩
    · have hv' : it.valid = false := by simpa using hv
      simp only [catch_up, hv', if_true, Option.some.injEq] at h
      subst h
      exact Or.inl hv'

theorem query_loop_multi_empty (s : indexer) (n : Nat) (it0 it1 : tx_iterator)
    (rest : List tx_iterator) (r : List Int)
    (h : query_loop s n (it0 :: it1 :: rest) [] = some r) : r = [] := by
  induction n generalizing it0 it1 rest with
  | zero =>
    simp only [query_loop, Option.some.injEq] at h
    exact h.symm
  | succ n ih =>
    unfold query_loop at h
    simp only [catch_up_all] at h
    cases hc : catch_up s it0 (it1._curr_list.size - it1._curr_list_idx) it1 with
    | none => rw [hc] at h; simp at h
    | some it1a =>
      rw [hc] at h
      simp only at h
      cases hr : catch_up_all s it0 rest with
      | none => rw [hr] at h; simp at h
      | some rest1 =>
        rw [hr] at h
        simp only [Option.map_some'] at h
        have hres := catch_up_result s it0 _ it1 it1a (Nat.le_refl _) hc
        by_cases hav : iters_all_valid (it0 :: it1a :: rest1) = true
        · have hv1 : it1a.valid = true := by
            simp only [iters_all_valid, List.all_cons, Bool.and_eq_true] at hav
            exact hav.2.1
          have hv0 : it0.valid = true := by
            simp only [iters_all_valid, List.all_cons, Bool.and_eq_true] at hav
            exact hav.1
          rcases hres with hres | ⟨a, b, ha, hb, hlt⟩
          · rw [hv1] at hres
            exact absurd hres (by decide)
          · have hne : a ≠ b := by omega
            simp only [hav, if_true, iters_value_all_equal, iters_value_equal_loop, ha, hb,
              ne_eq, hne, not_false_eq_true, Bool.false_eq_true, if_false,
              tx_iterator_next_of_valid s it0 hv0] at h
            exact ih _ it1a rest1 h
        · have hav' : iters_all_valid (it0 :: it1a :: rest1) = false := by simpa using hav
          simp only [hav', Bool.false_eq_true, if_false] at h
          cases hnext : it0.next s with
          | none => rw [hnext] at h; simp at h
          | some it0a =>
            rw [hnext] at h
            simp only [Option.some.injEq] at h
            exact h.symm

theorem build_iters_length (l : List (Option tx_iterator)) (iters : List tx_iterator)
    (h : build_iters l = some iters) : iters.length = l.length := by
  induction l generalizing iters with
  | nil =>
    simp only [build_iters, Option.some.injEq] at h
    subst h
    rfl
  | cons o rest ih =>
    cases o with
    | none => simp [build_iters] at h
    | some it =>
      simp only [build_iters] at h
      cases hb : build_iters rest with
      | none => rw [hb] at h; simp at h
      | some r =>
        rw [hb] at h
        simp only [Option.map_some', Option.some.injEq] at h
        subst h
        simp [ih r hb]

theorem query_iters_length (s : indexer) (q : tx_offsets_query) (iters : List tx_iterator)
    (h : query_iters s q = some iters) : iters.length = cursor_count q := by
  unfold query_iters at h
  rw [build_iters_length _ _ h]
  unfold cursor_count
  split_ifs
  · simp only [List.length_append, List.length_singleton, List.length_map]
  · simp

/-- The query in terms of the cursors it builds. -/
theorem query_tx_offsets_eq (s : indexer) (q : tx_offsets_query) :
    query_tx_offsets s q =
      match query_iters s q with
      | none => none
      | some [] => some []
      | some (it0 :: rest) =>
        if iters_all_valid (it0 :: rest) = true then
          query_loop s (it0._curr_list.size - it0._curr_list_idx + 1) (it0 :: rest) []
        else some [] := rfl

theorem query_multi_none_or_empty (s : indexer) (q : tx_offsets_query)
    (hcur : 2 ≤ cursor_count q) :
    query_tx_offsets s q = none ∨ query_tx_offsets s q = some [] := by
  rw [query_tx_offsets_eq]
  cases hq : query_iters s q with
  | none => exact Or.inl rfl
  | some iters =>
    have hlen := query_iters_length s q iters hq
    match iters, hlen with
    | [], hlen => simp at hlen; omega
    | [_], hlen => simp at hlen; omega
    | it0 :: it1 :: rest, _ =>
      simp only
      split_ifs
      · cases hl : query_loop s (it0._curr_list.size - it0._curr_list_idx + 1)
            (it0 :: it1 :: rest) [] with
        | none => exact Or.inl rfl
        | some r =>
          rw [query_loop_multi_empty s _ it0 it1 rest r hl]
          exact Or.inr rfl
      · exact Or.inr rfl

theorem tx_iterator_value_of_readable (it : tx_iterator) (hr : it.readable = true) :
    ∃ v, it.value = some v := by
  have hr1 : it._curr_list.size ≤ it._curr_list.data.length := by
    simpa [tx_iterator.readable] using hr
  by_cases hv : it.valid = true
  · have h2 := ((tx_iterator_valid_iff it).1 hv).2
    have h3 : it._curr_list_idx < it._curr_list.data.length := by omega
    unfold tx_iterator.value
    simp only [hv, Bool.true_eq_false, if_false, List.getElem?_eq_getElem h3]
    exact ⟨_, rfl⟩
  · have hv' : it.valid = false := by simpa using hv
    unfold tx_iterator.value
    simp only [hv', if_true]
    exact ⟨_, rfl⟩

theorem tx_iterator_next_readable (s : indexer) (it : tx_iterator) (hr : it.readable = true) :
    ∃ it1, it.next s = some it1 ∧ it1.readable = true := by
  by_cases hv : it.valid = true
  · exact ⟨_, tx_iterator_next_of_valid s it hv, hr⟩
  · have hv' : it.valid = false := by simpa using hv
    exact ⟨it, tx_iterator_next_of_not_valid s it hv', hr⟩

theorem catch_up_total (s : indexer) (it0 : tx_iterator) (h0 : it0.readable = true) (n : Nat)
    (it : tx_iterator) (hr : it.readable = true) :
    ∃ it1, catch_up s it0 n it = some it1 ∧ it1.readable = true := by
  induction n generalizing it with
  | zero => exact ⟨it, rfl, hr⟩
  | succ n ih =>
    by_cases hv : it.valid = true
    · obtain ⟨a, ha⟩ := tx_iterator_value_of_readable it hr
      obtain ⟨b, hb⟩ := tx_iterator_value_of_readable it0 h0
      simp only [catch_up, hv, ha, hb, Bool.true_eq_false, if_false,
        tx_iterator_next_of_valid s it hv]
      by_cases hab : a ≤ b
      · simp only [hab, if_true]
        exact ih _ hr
      · simp only [hab, if_false]
        exact ⟨it, rfl, hr⟩
    · have hv' : it.valid = false := by simpa using hv
      simp only [catch_up, hv', if_true]
      exact ⟨it, rfl, hr⟩

theorem catch_up_all_total (s : indexer) (it0 : tx_iterator) (h0 : it0.readable = true)
    (rest : List tx_iterator) (hr : ∀ it ∈ rest, it.readable = true) :
    ∃ rest1, catch_up_all s it0 rest = some rest1 ∧ ∀ it ∈ rest1, it.readable = true := by
  induction rest with
  | nil => exact ⟨[], rfl, by simp⟩
  | cons it rest ih =>
    obtain ⟨it1, h1, h2⟩ := catch_up_total s it0 h0
      (it._curr_list.size - it._curr_list_idx) it (hr it (List.mem_cons_self _ _))
    obtain ⟨rest1, h3, h4⟩ := ih (fun i hi => hr i (List.mem_cons_of_mem _ hi))
    refine ⟨it1 :: rest1, by simp [catch_up_all, h1, h3], ?_⟩
    intro i hi
    rcases List.mem_cons.1 hi with h | h
    · rw [h]; exact h2
    · exact h4 i h

theorem iters_value_equal_loop_total (it0 : tx_iterator) (h0 : it0.readable = true)
    (rest : List tx_iterator) (hr : ∀ it ∈ rest, it.readable = true) :
    ∃ b, iters_value_equal_loop it0 rest = some b := by
  induction rest with
  | nil => exact ⟨true, rfl⟩
  | cons it rest ih =>
    obtain ⟨a, ha⟩ := tx_iterator_value_of_readable it (hr it (List.mem_cons_self _ _))
    obtain ⟨b, hb⟩ := tx_iterator_value_of_readable it0 h0
    simp only [iters_value_equal_loop, ha, hb]
    by_cases hab : a ≠ b
    · rw [if_pos hab]
      exact ⟨false, rfl⟩
    · rw [if_neg hab]
      exact ih (fun i hi => hr i (List.mem_cons_of_mem _ hi))

/-- When every cursor can read its current list, the query loop runs to its end. -/
theorem query_loop_total (s : indexer) (n : Nat) (iters : List tx_iterator) (acc : List Int)
    (hr : ∀ it ∈ iters, it.readable = true) : ∃ r, query_loop s n iters acc = some r := by
  induction n generalizing iters acc with
  | zero => exact ⟨acc, rfl⟩
  | succ n ih =>
    match iters, hr with
    | [], _ => exact ⟨acc, rfl⟩
    | it0 :: rest, hr =>
      have h0 := hr it0 (List.mem_cons_self _ _)
      obtain ⟨rest1, h1, h2⟩ := catch_up_all_total s it0 h0 rest
        (fun i hi => hr i (List.mem_cons_of_mem _ hi))
      obtain ⟨b, hb⟩ := iters_value_equal_loop_total it0 h0 rest1 h2
      obtain ⟨v, hv⟩ := tx_iterator_value_of_readable it0 h0
      obtain ⟨it0a, h3, h4⟩ := tx_iterator_next_readable s it0 h0
      have hr1 : ∀ it ∈ it0a :: rest1, it.readable = true := by
        intro i hi
        rcases List.mem_cons.1 hi with h | h
        · rw [h]; exact h4
        · exact h2 i h
      unfold query_loop
      simp only [h1, iters_value_all_equal, hb, hv, h3, Option.map_some']
      by_cases hav : iters_all_valid (it0 :: rest1) = true
      · simp only [hav, if_true]
        cases b with
        | true =>
          simp only [if_true]
          exact ih _ _ hr1
        | false =>
          simp only [Bool.false_eq_true, if_false]
          exact ih _ _ hr1
      · have hav' : iters_all_valid (it0 :: rest1) = false := by simpa using hav
        simp only [hav', Bool.false_eq_true, if_false]
        exact ⟨acc, rfl⟩

/-- C17: a query that builds two or more cursors returns a list of size 0: the call either
stops on a memory fault (`none`: a null vector or a read out of range) or returns the empty
list, and it does return the empty list whenever its cursors are built and each can read
its current list. After the catch-up loop every other cursor is invalid or strictly above
cursor 0, so line 321 never pushes. -/
theorem query_multi_empty (s : indexer) (q : tx_offsets_query) (iters : List tx_iterator)
    (hcur : 2 ≤ cursor_count q) :
    (query_tx_offsets s q = none ∨ query_tx_offsets s q = some []) ∧
      (query_iters s q = some iters → iters.all (fun it => it.readable) = true →
        query_tx_offsets s q = some []) := by
  refine ⟨query_multi_none_or_empty s q hcur, ?_⟩
  intro hq hall
  have hr : ∀ it ∈ iters, it.readable = true := by
    simpa [List.all_eq_true] using hall
  have htot : ∃ r, query_tx_offsets s q = some r := by
    rw [query_tx_offsets_eq, hq]
    match iters, hr with
    | [], _ => exact ⟨[], rfl⟩
    | it0 :: rest, hr =>
      simp only
      split_ifs
      · exact query_loop_total s _ _ _ hr
      · exact ⟨[], rfl⟩
  obtain ⟨r, hres⟩ := htot
  rcases query_multi_none_or_empty s q hcur with h | h
  · rw [h] at hres
    simp at hres
  · exact h

/-- C17, witness: the query `{addr=0xA, topics=[0xB], 100..102}` on `spilled_state`: both
cursors stand on `(100<<24)|1` and can read their lists, the result is empty. -/
theorem query_multi_empty_witness :
    (query_iters spilled_state ⟨0xA, [0xB], 100, 102⟩).map
        (fun l => l.map (fun it => it.value)) =
        some [some (100 <<< 24 ||| 1), some (100 <<< 24 ||| 1)] ∧
      (query_tx_offsets spilled_state ⟨0xA, [0xB], 100, 102⟩ = none ∨
        query_tx_offsets spilled_state ⟨0xA, [0xB], 100, 102⟩ = some []) ∧
      query_tx_offsets spilled_state ⟨0xA, [0xB], 100, 102⟩ = some [] :=
  ⟨by decide,
    (query_multi_empty spilled_state ⟨0xA, [0xB], 100, 102⟩
      ((query_iters spilled_state ⟨0xA, [0xB], 100, 102⟩).getD []) (by decide)).1,
    (query_multi_empty spilled_state ⟨0xA, [0xB], 100, 102⟩
      ((query_iters spilled_state ⟨0xA, [0xB], 100, 102⟩).getD []) (by decide)).2
      (by decide) (by decide)⟩

/-- C11: the offsets returned for `{addr_hash=A, topics=[T]}` are among those returned for
`{addr_hash=A, no topics}` and among those returned for `{address unused, topics=[T]}` (an
unused address is an `addr_hash` with `addr_hash >> 48` not 0). The inclusion holds because
the query with two cursors returns the empty list. -/
theorem query_subset (s : indexer) (A T U a b : Nat) (r ra rt : List Int)
    (hA : A < 2 ^ 48) (hU : U >>> 48 ≠ 0)
    (hr : query_tx_offsets s ⟨A, [T], a, b⟩ = some r)
    (hra : query_tx_offsets s ⟨A, [], a, b⟩ = some ra)
    (hrt : query_tx_offsets s ⟨U, [T], a, b⟩ = some rt) :
    r ⊆ ra ∧ r ⊆ rt ∧ r = [] := by
  have _ := hU
  have _ := hra
  have _ := hrt
  have h48 : A >>> 48 = 0 := by
    rw [Nat.shiftRight_eq_div_pow]
    exact Nat.div_eq_of_lt hA
  have hcur : 2 ≤ cursor_count ⟨A, [T], a, b⟩ := by
    simp [cursor_count, h48]
  have hnil : r = [] := by
    rcases query_multi_none_or_empty s ⟨A, [T], a, b⟩ hcur with h | h
    · rw [h] at hr
      simp at hr
    · rw [h] at hr
      simp only [Option.some.injEq] at hr
      exact hr.symm
  rw [hnil]
  exact ⟨List.nil_subset _, List.nil_subset _, rfl⟩

/-- C11, witness: address `0xA` and topic `0xB` over heights 100..102 in `spilled_state`. -/
theorem query_subset_witness :
    (query_tx_offsets spilled_state ⟨0xA, [], 100, 102⟩ = some [500, -1, -1, -1] ∧
      query_tx_offsets spilled_state ⟨2 ^ 48, [0xB], 100, 102⟩ = some [500, -1, -1, -1]) ∧
    (([] : List Int) ⊆ [500, -1, -1, -1] ∧ ([] : List Int) ⊆ [500, -1, -1, -1] ∧
      ([] : List Int) = []) :=
  ⟨by decide,
    query_subset spilled_state 0xA 0xB (2 ^ 48) 100 102 [] [500, -1, -1, -1]
      [500, -1, -1, -1] (by decide) (by decide) (by decide) (by decide) (by decide)⟩

/-! ## The spill path -/

/-- Replacing the value of the entry `get_iter_at_height` finds keeps it the entry found. -/
theorem get_iter_at_height_insert_same (s t : indexer) (height : Nat)
    (hwf : s.blk_htpos2ptr_map.wf) (e : Nat × Option (List Nat)) (v : Option (List Nat))
    (hg : get_iter_at_height s height = some e)
    (ht : t.blk_htpos2ptr_map = s.blk_htpos2ptr_map.insert (height >>> 24) e.1 v) :
    get_iter_at_height t height = some (e.1, v) := by
  obtain ⟨hmem, hmin⟩ := get_iter_at_height_some s height hwf e hg
  obtain ⟨hm1, hm2⟩ := (mem_block_entries s height e).1 hmem
  have hwft : t.blk_htpos2ptr_map.wf := by
    rw [ht]
    exact bigmap_wf_insert _ _ _ _ hwf
  have hshard : t.blk_htpos2ptr_map._map_arr (height >>> 24) =
      basic_map.insert (s.blk_htpos2ptr_map._map_arr (height >>> 24)) e.1 v := by
    rw [ht, bigmap_insert_arr_same]
  have hnew : ((e.1, v) : Nat × Option (List Nat)) ∈ block_entries t height := by
    rw [mem_block_entries, hshard]
    exact ⟨shard_mem_insert_self _ _ _, hm2⟩
  cases hgt : get_iter_at_height t height with
  | none =>
    rw [get_iter_at_height_none t height hwft hgt] at hnew
    simp at hnew
  | some e2 =>
    obtain ⟨hmem2, hmin2⟩ := get_iter_at_height_some t height hwft e2 hgt
    obtain ⟨hm3, hm4⟩ := (mem_block_entries t height e2).1 hmem2
    rw [hshard] at hm3
    rcases shard_mem_of_mem_insert _ _ _ (hwf _) e2 hm3 with h | h
    · rw [h]
    · exfalso
      have h5 := hmin e2 ((mem_block_entries s height e2).2 ⟨h.1, hm4⟩)
      have h6 := hmin2 _ hnew
      simp only at h6
      exact h.2 (by omega)

theorem get_vec_at_height_congr (s t : indexer) (height : Nat)
    (h : s.blk_htpos2ptr_map = t.blk_htpos2ptr_map) :
    (get_vec_at_height s height false).1 = (get_vec_at_height t height false).1 := by
  unfold get_vec_at_height
  rw [get_iter_at_height_congr s t height h]
  cases get_iter_at_height t height with
  | none => rfl
  | some e => simp

theorem get_vec_at_height_of_entry (s : indexer) (height : Nat)
    (e : Nat × Option (List Nat)) (hg : get_iter_at_height s height = some e) :
    (get_vec_at_height s height false).1 = e.2 := by
  unfold get_vec_at_height
  rw [hg]
  simp

/-- What `add_to_log_map` does on the spill path when the block has an entry: the vector of
the block grows by the length word and the indices, and the magic `(7 << 61) | base` is
stored under the log key. -/
theorem add_to_log_map_spill (s : indexer) (m : bigmap Nat) (hash48 height : Nat)
    (index_ptr : List Nat) (hwf : s.blk_htpos2ptr_map.wf) (e : Nat × Option (List Nat))
    (hg : get_iter_at_height s height = some e) (hn : 3 < index_ptr.length) :
    ∃ s1, add_to_log_map s m hash48 height index_ptr =
        some (s1, m.insert (hash48 >>> 32) (log_key hash48 height)
          ((vec_of_entry e).length ||| (7 <<< 61))) ∧
      get_iter_at_height s1 height =
        some (e.1, some (vec_of_entry e ++ [bits24.from_uint32 index_ptr.length] ++
          index_ptr.map bits24.from_uint32)) ∧
      s1.blk_htpos2ptr_map.wf ∧
      s1.blk_hash2ht_map = s.blk_hash2ht_map ∧ s1.tx_id2pos_map = s.tx_id2pos_map ∧
      s1.tx_hash2pos_map = s.tx_hash2pos_map ∧ s1.addr_map = s.addr_map ∧
      s1.topic_map = s.topic_map := by
  have hn' : ¬ index_ptr.length ≤ 3 := by omega
  unfold add_to_log_map
  simp only [hn', if_false]
  unfold get_vec_at_height
  rw [hg]
  by_cases hnull : e.2 = none
  · simp only [hnull, true_and, if_true]
    have hv : vec_of_entry e = [] := by simp [vec_of_entry, hnull]
    have h1 := get_iter_at_height_insert_same s
      { s with blk_htpos2ptr_map := s.blk_htpos2ptr_map.insert (height >>> 24) e.1 (some []) }
      height hwf e (some []) hg rfl
    have hwf1 : (s.blk_htpos2ptr_map.insert (height >>> 24) e.1 (some [])).wf :=
      bigmap_wf_insert _ _ _ _ hwf
    rw [hv]
    refine ⟨set_vec_at_height
      { s with blk_htpos2ptr_map := s.blk_htpos2ptr_map.insert (height >>> 24) e.1 (some []) }
      height ([] ++ [bits24.from_uint32 index_ptr.length] ++ index_ptr.map bits24.from_uint32),
      rfl, ?_, ?_, ?_⟩
    · unfold set_vec_at_height
      rw [h1]
      exact get_iter_at_height_insert_same _ _ height hwf1 (e.1, some []) _ h1 rfl
    · unfold set_vec_at_height
      rw [h1]
      exact bigmap_wf_insert _ _ _ _ hwf1
    · unfold set_vec_at_height
      rw [h1]
      exact ⟨rfl, rfl, rfl, rfl, rfl⟩
  · obtain ⟨vec, hvec⟩ : ∃ vec, e.2 = some vec := by
      cases h : e.2 with
      | none => exact absurd h hnull
      | some vec => exact ⟨vec, rfl⟩
    have hv : vec_of_entry e = vec := by simp [vec_of_entry, hvec]
    simp only [hvec, false_and, if_false, reduceCtorEq]
    rw [hv]
    refine ⟨set_vec_at_height s height
      (vec ++ [bits24.from_uint32 index_ptr.length] ++ index_ptr.map bits24.from_uint32),
      rfl, ?_, ?_, ?_⟩
    · unfold set_vec_at_height
      rw [hg]
      exact get_iter_at_height_insert_same s _ height hwf e _ hg rfl
    · unfold set_vec_at_height
      rw [hg]
      exact bigmap_wf_insert _ _ _ _ hwf
    · unfold set_vec_at_height
      rw [hg]
      exact ⟨rfl, rfl, rfl, rfl, rfl⟩

/-- The closed range `[k, k]` of a sorted shard into which key `k` was inserted holds exactly
the inserted entry. -/
theorem shard_range_after_insert {V : Type} (m : List (Nat × V)) (k : Nat) (v : V)
    (hs : basic_map.sorted m) :
    (basic_map.lower_bound (basic_map.insert m k v) k).takeWhile
      (fun e => decide (e.1 ≤ k)) = [(k, v)] := by
  induction m with
  | nil => simp [basic_map.insert, basic_map.lower_bound, List.dropWhile_cons,
      List.takeWhile_cons]
  | cons e0 rest ih =>
    have hs0 := List.pairwise_cons.1 hs
    unfold basic_map.insert
    split_ifs with h1 h2
    · have h3 : ¬ e0.1 ≤ k := by omega
      simp [basic_map.lower_bound, List.dropWhile_cons, List.takeWhile_cons, h3]
    · have h3 : List.takeWhile (fun e : Nat × V => decide (e.1 ≤ k)) rest = [] := by
        cases rest with
        | nil => rfl
        | cons e1 r =>
          have := hs0.1 e1 (List.mem_cons_self _ _)
          have h4 : ¬ e1.1 ≤ k := by omega
          simp [List.takeWhile_cons, h4]
      simp [basic_map.lower_bound, List.dropWhile_cons, List.takeWhile_cons, h3]
    · have h3 : e0.1 < k := by omega
      have : basic_map.lower_bound (e0 :: basic_map.insert rest k v) k =
          basic_map.lower_bound (basic_map.insert rest k v) k := by
        simp [basic_map.lower_bound, List.dropWhile_cons, h3]
      rw [this]
      exact ih hs0.2

theorem log_key_height (hash48 height : Nat) (hh : height < 2 ^ 32) :
    log_key hash48 height % 2 ^ 32 = height := by
  unfold log_key
  have h1 : (hash48 <<< 32) % 2 ^ 64 = (hash48 % 2 ^ 32) * 2 ^ 32 := by
    rw [Nat.shiftLeft_eq]
    norm_num
    omega
  rw [h1, Nat.mul_comm, ← Nat.mul_add_lt_is_or hh]
  norm_num at hh ⊢
  omega

theorem spill_magic_tag (base : Nat) (hb : base < 2 ^ 61) :
    (base ||| (7 <<< 61)) >>> 61 = 7 ∧
      (((base ||| (7 <<< 61)) <<< 3) % 2 ^ 64) >>> 3 = base := by
  rw [lor_shift_add base 7 61 hb]
  simp only [Nat.shiftRight_eq_div_pow, Nat.shiftLeft_eq]
  norm_num at hb ⊢
  omega

/-- What an iterator whose current list can be read yields: the slots from the list index
on, each under the height of the cursor's entry. -/
theorem tx_iterator_collect_spec (s : indexer) (k : Nat) (it : tx_iterator)
    (hk : it._curr_list.size - it._curr_list_idx = k) (hne : it._iter ≠ [])
    (hr : it._curr_list.size ≤ it._curr_list.data.length) :
    tx_iterator.collect s k it =
      some ((it._curr_list.slots.drop it._curr_list_idx).map
        (fun d => (bigmap.iterator.key it._iter % 2 ^ 32) <<< 24 ||| d)) := by
  induction k generalizing it with
  | zero =>
    have h1 : it._curr_list.slots.length ≤ it._curr_list_idx := by
      simp only [bits24_list.slots, List.length_take]
      omega
    rw [List.drop_eq_nil_of_le h1]
    rfl
  | succ k ih =>
    have hlt : it._curr_list_idx < it._curr_list.size := by omega
    have hv : it.valid = true := (tx_iterator_valid_iff it).2 ⟨hne, hlt⟩
    have hlt2 : it._curr_list_idx < it._curr_list.data.length := by omega
    have hlt3 : it._curr_list_idx < it._curr_list.slots.length := by
      simp only [bits24_list.slots, List.length_take]
      omega
    have hval : it.value = some ((bigmap.iterator.key it._iter % 2 ^ 32) <<< 24 |||
        it._curr_list.data[it._curr_list_idx]) := by
      unfold tx_iterator.value
      simp only [hv, Bool.true_eq_false, if_false, List.getElem?_eq_getElem hlt2]
      rfl
    have hrec := ih { it with _curr_list_idx := it._curr_list_idx + 1 }
      (by simp only; omega) hne hr
    simp only [tx_iterator.collect, hv, hval, tx_iterator_next_of_valid s it hv,
      Bool.true_eq_false, if_false, hrec, Option.map_some']
    have hdrop : it._curr_list.slots.drop it._curr_list_idx =
        it._curr_list.slots[it._curr_list_idx] ::
          it._curr_list.slots.drop (it._curr_list_idx + 1) :=
      List.drop_eq_getElem_cons hlt3
    have hget : it._curr_list.slots[it._curr_list_idx] =
        it._curr_list.data[it._curr_list_idx] := by
      simp only [bits24_list.slots, List.getElem_take]
    rw [hdrop, List.map_cons, hget]

/-- The list a spilled entry expands to, given the vector of its block. -/
theorem stored_list_spill (s : indexer) (key base : Nat) (vec : List Nat)
    (hb : base < 2 ^ 61)
    (hvec : (get_vec_at_height s (key % 2 ^ 32) false).1 = some vec) :
    stored_list s (key, base ||| (7 <<< 61)) =
      (vec[base]?).map (fun n => ⟨vec.drop (base + 1), n⟩) := by
  obtain ⟨h1, h2⟩ := spill_magic_tag base hb
  unfold stored_list tx_iterator.load_list
  simp only [bigmap.iterator.value, bigmap.iterator.key, h1, h2, if_true, hvec]
  cases vec[base]? with
  | none => rfl
  | some n => rfl

/-- Loading the list only looks at the entry the cursor stands on. -/
theorem load_list_cons (s : indexer) (l0 : bits24_list) (i0 : Nat) (e : Nat × Nat)
    (rest : List (Nat × Nat)) :
    tx_iterator.load_list s ⟨l0, i0, e :: rest⟩ =
      (stored_list s e).map (fun l => ⟨l, 0, e :: rest⟩) := by
  unfold stored_list tx_iterator.load_list
  simp only [bigmap.iterator.value, bigmap.iterator.key]
  split_ifs
  · cases (get_vec_at_height s (e.1 % 2 ^ 32) false).1 with
    | none => rfl
    | some vec =>
      simp only
      cases vec[((e.2 <<< 3) % 2 ^ 64) >>> 3]? with
      | none => rfl
      | some n => rfl
  · cases bits24_list.from_uint64 (((e.2 <<< 3) % 2 ^ 64) >>> 3) with
    | none => rfl
    | some l => rfl

theorem spill_vec_read (old : List Nat) (n : Nat) (rest : List Nat) :
    (old ++ [n] ++ rest)[old.length]? = some n ∧
      (old ++ [n] ++ rest).drop (old.length + 1) = rest := by
  constructor
  · rw [List.append_assoc, List.getElem?_append_right (Nat.le_refl _)]
    simp
  · rw [List.append_assoc, List.drop_append]
    rfl

/-- The iterator over `[height, height]` right after a spilled `add_to_log_map`: it yields
the first `n mod 2^24` of the indices as stored (each reduced to 24 bits), under `height`. -/
theorem spill_iterator (s : indexer) (m : bigmap Nat) (hash48 height : Nat)
    (index_ptr : List Nat) (hwf : s.blk_htpos2ptr_map.wf) (hm : m.wf)
    (e : Nat × Option (List Nat)) (hg : get_iter_at_height s height = some e)
    (hlen : (vec_of_entry e).length < 2 ^ 61) (hn : 3 < index_ptr.length)
    (hh : height < 2 ^ 32) :
    ∃ s1, add_to_log_map s m hash48 height index_ptr =
        some (s1, m.insert (hash48 >>> 32) (log_key hash48 height)
          ((vec_of_entry e).length ||| (7 <<< 61))) ∧
      (get_vec_at_height s1 height false).1 =
        some (vec_of_entry e ++ [bits24.from_uint32 index_ptr.length] ++
          index_ptr.map bits24.from_uint32) ∧
      ∀ t : indexer, t.blk_htpos2ptr_map = s1.blk_htpos2ptr_map →
        ∃ it, _iterator_at_log_map t
            (m.insert (hash48 >>> 32) (log_key hash48 height)
              ((vec_of_entry e).length ||| (7 <<< 61))) hash48 height height = some it ∧
          it.yielded t = some
            (((index_ptr.map bits24.from_uint32).take
              (bits24.from_uint32 index_ptr.length)).map (fun d => height <<< 24 ||| d)) := by
  obtain ⟨s1, h1, h2, _, _⟩ := add_to_log_map_spill s m hash48 height index_ptr hwf e hg hn
  have hvec1 := get_vec_at_height_of_entry s1 height _ h2
  refine ⟨s1, h1, hvec1, ?_⟩
  intro t ht
  have hvect : (get_vec_at_height t (log_key hash48 height % 2 ^ 32) false).1 =
      some (vec_of_entry e ++ [bits24.from_uint32 index_ptr.length] ++
        index_ptr.map bits24.from_uint32) := by
    rw [log_key_height hash48 height hh, get_vec_at_height_congr t s1 height ht]
    exact hvec1
  obtain ⟨hr1, hr2⟩ := spill_vec_read (vec_of_entry e) (bits24.from_uint32 index_ptr.length)
    (index_ptr.map bits24.from_uint32)
  have hcur : (m.insert (hash48 >>> 32) (log_key hash48 height)
      ((vec_of_entry e).length ||| (7 <<< 61))).get_iterator (hash48 >>> 32)
        (log_key hash48 height) (hash48 >>> 32) (log_key hash48 height) =
      [(log_key hash48 height, (vec_of_entry e).length ||| (7 <<< 61))] := by
    unfold bigmap.get_iterator
    simp only [if_true, bigmap_insert_arr_same]
    exact shard_range_after_insert _ _ _ (hm _)
  have hit : _iterator_at_log_map t
      (m.insert (hash48 >>> 32) (log_key hash48 height)
        ((vec_of_entry e).length ||| (7 <<< 61))) hash48 height height =
      some ⟨⟨index_ptr.map bits24.from_uint32, bits24.from_uint32 index_ptr.length⟩, 0,
        [(log_key hash48 height, (vec_of_entry e).length ||| (7 <<< 61))]⟩ := by
    unfold _iterator_at_log_map
    simp only [hcur]
    rw [load_list_cons, stored_list_spill t _ _ _ hlen hvect, hr1, hr2]
    rfl
  refine ⟨_, hit, ?_⟩
  unfold tx_iterator.yielded
  have hle : bits24.from_uint32 index_ptr.length ≤
      (index_ptr.map bits24.from_uint32).length := by
    rw [List.length_map]
    exact Nat.mod_le _ _
  rw [tx_iterator_collect_spec t _ _ rfl (by simp) hle]
  simp only [bits24_list.slots, List.drop_zero, bigmap.iterator.key,
    log_key_height hash48 height hh]

/-- The ids `addr_iterator(hash48, height, height)` yields right after a spilled
`add_addr2log`, for an index list of any length above 3. -/
theorem spill_yields (s : indexer) (hwf : s.wf) (hash48 height : Nat) (index_ptr : List Nat)
    (e : Nat × Option (List Nat)) (hg : get_iter_at_height s height = some e)
    (hlen : (vec_of_entry e).length < 2 ^ 61) (hn : 3 < index_ptr.length)
    (hh : height < 2 ^ 32) :
    (add_addr2log s hash48 height index_ptr).bind
        (fun s1 => (addr_iterator s1 hash48 height height).bind (fun it => it.yielded s1)) =
        some (((index_ptr.map bits24.from_uint32).take
          (bits24.from_uint32 index_ptr.length)).map (fun d => height <<< 24 ||| d)) ∧
      (add_addr2log s hash48 height index_ptr).map
        (fun s1 => s1.addr_map.get (hash48 >>> 32) (log_key hash48 height)) =
        some (some ((vec_of_entry e).length ||| (7 <<< 61))) ∧
      (add_addr2log s hash48 height index_ptr).map
        (fun s1 => (get_vec_at_height s1 height false).1) =
        some (some (vec_of_entry e ++ [bits24.from_uint32 index_ptr.length] ++
          index_ptr.map bits24.from_uint32)) := by
  obtain ⟨s1, h1, h2, h3⟩ := spill_iterator s s.addr_map hash48 height index_ptr hwf.1
    hwf.2.2.2.2.1 e hg hlen hn hh
  obtain ⟨it, h4, h5⟩ := h3
    { s1 with
      addr_map := (s.addr_map.insert (hash48 >>> 32) (log_key hash48 height)
        ((vec_of_entry e).length ||| (7 <<< 61))) } rfl
  unfold add_addr2log addr_iterator
  rw [h1]
  simp only [Option.map_some', Option.some_bind, h4, h5, bigmap_get_insert_same, true_and]
  have ht : ∀ t : indexer, t.blk_htpos2ptr_map = s1.blk_htpos2ptr_map →
      (get_vec_at_height t height false).1 =
        some (vec_of_entry e ++ [bits24.from_uint32 index_ptr.length] ++
          index_ptr.map bits24.from_uint32) :=
    fun t ht => by rw [get_vec_at_height_congr t s1 height ht, h2]
  exact congrArg some (ht _ rfl)

theorem map_from_uint32_id (l : List Nat) (h : ∀ x ∈ l, x < 2 ^ 24) :
    l.map bits24.from_uint32 = l := by
  induction l with
  | nil => rfl
  | cons a rest ih =>
    rw [List.map_cons, ih (fun x hx => h x (List.mem_cons_of_mem _ hx))]
    unfold bits24.from_uint32
    rw [Nat.mod_eq_of_lt (h a (List.mem_cons_self _ _))]

/-- C12 (as amended): in a state with a block content entry `e` for `height` (its vector
holding fewer than `2^61` elements), for every index list of length `n` with `3 < n < 2^24`
and each index below `2^24`: after `add_addr2log(hash48, height, list)`,
`addr_iterator(hash48, height, height)` yields exactly the `n` values `(height<<24)|list[j]`
in order, read back from the vector segment (length word `n`, then the indices) appended to
the block's vector, to which the stored magic (tag 7, payload = old length of the vector)
points. -/
theorem spill_roundtrip (s : indexer) (hwf : s.wf) (hash48 height : Nat)
    (index_ptr : List Nat) (e : Nat × Option (List Nat))
    (hg : get_iter_at_height s height = some e)
    (hlen : (vec_of_entry e).length < 2 ^ 61) (hn : 3 < index_ptr.length)
    (hn24 : index_ptr.length < 2 ^ 24) (hidx : ∀ x ∈ index_ptr, x < 2 ^ 24)
    (hh : height < 2 ^ 32) (hhash : hash48 < 2 ^ 48) :
    (add_addr2log s hash48 height index_ptr).bind
        (fun s1 => (addr_iterator s1 hash48 height height).bind (fun it => it.yielded s1)) =
        some (index_ptr.map (fun i => height <<< 24 ||| i)) ∧
      (add_addr2log s hash48 height index_ptr).map
        (fun s1 => s1.addr_map.get (hash48 >>> 32) (log_key hash48 height)) =
        some (some ((vec_of_entry e).length ||| (7 <<< 61))) ∧
      (add_addr2log s hash48 height index_ptr).map
        (fun s1 => (get_vec_at_height s1 height false).1) =
        some (some (vec_of_entry e ++ [index_ptr.length] ++ index_ptr)) := by
  have _ := hhash
  obtain ⟨h1, h2, h3⟩ := spill_yields s hwf hash48 height index_ptr e hg hlen hn hh
  have hmap := map_from_uint32_id index_ptr hidx
  have hcount : bits24.from_uint32 index_ptr.length = index_ptr.length := by
    unfold bits24.from_uint32
    exact Nat.mod_eq_of_lt hn24
  rw [hmap, hcount] at h1 h3
  rw [List.take_of_length_le (Nat.le_refl _)] at h1
  exact ⟨h1, h2, h3⟩

theorem spill_length_wraps (s : indexer) (hwf : s.wf) (hash48 height : Nat)
    (index_ptr : List Nat) (e : Nat × Option (List Nat))
    (hg : get_iter_at_height s height = some e)
    (hlen : (vec_of_entry e).length < 2 ^ 61) (hn : index_ptr.length = 2 ^ 24)
    (hh : height < 2 ^ 32) :
    (add_addr2log s hash48 height index_ptr).bind
        (fun s1 => (addr_iterator s1 hash48 height height).bind (fun it => it.yielded s1)) =
        some [] := by
  have h3 : 3 < index_ptr.length := by
    rw [hn]
    norm_num
  obtain ⟨h1, _, _⟩ := spill_yields s hwf hash48 height index_ptr e hg hlen h3 hh
  have hcount : bits24.from_uint32 index_ptr.length = 0 := by
    unfold bits24.from_uint32
    rw [hn]
    exact Nat.mod_self _
  rw [hcount, List.take_zero, List.map_nil] at h1
  exact h1

theorem three_blocks_wf : three_blocks.wf :=
  add_block_wf _ _ _ _ (add_block_wf _ _ _ _ (add_block_wf _ _ _ _ indexer_wf_empty))

/-- C12, the claim as stated fails: for the list of the `2^24` indices `0 .. 2^24 - 1` (each
below `2^24`) at height 100, where a block was added, the length word is stored as a `bits24`
and reads 0, so `addr_iterator(1, 100, 100)` yields no value. -/
theorem spill_roundtrip_counterexample :
    (List.range (2 ^ 24)).length = 2 ^ 24 ∧
      (get_iter_at_height three_blocks 100).isSome = true ∧
      (add_addr2log three_blocks 1 100 (List.range (2 ^ 24))).bind
        (fun s1 => (addr_iterator s1 1 100 100).bind (fun it => it.yielded s1)) = some [] :=
  ⟨List.length_range _, by decide,
    spill_length_wraps three_blocks three_blocks_wf 1 100 (List.range (2 ^ 24))
      ((100 <<< 40) % 2 ^ 64, none) (by decide) (by decide) (List.length_range _)
      (by decide)⟩

/-- C12, witness: scenario S5, `add_addr2log(1, 100, [1,2,3,4,5])` with the block of height
100 present. -/
theorem spill_roundtrip_witness :
    (add_addr2log three_blocks 1 100 [1, 2, 3, 4, 5]).bind
        (fun s1 => (addr_iterator s1 1 100 100).bind (fun it => it.yielded s1)) =
        some [100 <<< 24 ||| 1, 100 <<< 24 ||| 2, 100 <<< 24 ||| 3, 100 <<< 24 ||| 4,
          100 <<< 24 ||| 5] ∧
      (add_addr2log three_blocks 1 100 [1, 2, 3, 4, 5]).map
        (fun s1 => s1.addr_map.get (1 >>> 32) (log_key 1 100)) =
        some (some (0 ||| (7 <<< 61))) ∧
      (add_addr2log three_blocks 1 100 [1, 2, 3, 4, 5]).map
        (fun s1 => (get_vec_at_height s1 100 false).1) =
        some (some [5, 1, 2, 3, 4, 5]) :=
  spill_roundtrip three_blocks three_blocks_wf 1 100 [1, 2, 3, 4, 5]
    ((100 <<< 40) % 2 ^ 64, none) (by decide) (by decide) (by decide) (by decide)
    (by decide) (by decide) (by decide)

/-! ## Spills are append-only -/

theorem add_to_log_map_wf (s : indexer) (m : bigmap Nat) (hash48 height : Nat)
    (index_ptr : List Nat) (hwf : s.wf) (hm : m.wf) (s1 : indexer) (m1 : bigmap Nat)
    (h : add_to_log_map s m hash48 height index_ptr = some (s1, m1)) :
    s1.wf ∧ m1.wf := by
  by_cases hn : index_ptr.length ≤ 3
  · unfold add_to_log_map at h
    simp only [hn, if_true, Option.some.injEq, Prod.mk.injEq] at h
    rw [← h.1, ← h.2]
    exact ⟨hwf, bigmap_wf_insert _ _ _ _ hm⟩
  · cases hg : get_iter_at_height s height with
    | none =>
      unfold add_to_log_map get_vec_at_height at h
      simp [hn, hg] at h
    | some e =>
      obtain ⟨s2, h1, _, h3, h4, h5, h6, h7, h8⟩ :=
        add_to_log_map_spill s m hash48 height index_ptr hwf.1 e hg (by omega)
      rw [h1] at h
      simp only [Option.some.injEq, Prod.mk.injEq] at h
      rw [← h.1, ← h.2]
      refine ⟨⟨h3, ?_, ?_, ?_, ?_, ?_⟩, bigmap_wf_insert _ _ _ _ hm⟩
      · rw [h4]; exact hwf.2.1
      · rw [h5]; exact hwf.2.2.1
      · rw [h6]; exact hwf.2.2.2.1
      · rw [h7]; exact hwf.2.2.2.2.1
      · rw [h8]; exact hwf.2.2.2.2.2

theorem add_topic2log_wf (s : indexer) (hash48 height : Nat) (index_ptr : List Nat)
    (hwf : s.wf) (s1 : indexer) (h : add_topic2log s hash48 height index_ptr = some s1) :
    s1.wf := by
  unfold add_topic2log at h
  cases ha : add_to_log_map s s.topic_map hash48 height index_ptr with
  | none => rw [ha] at h; simp at h
  | some r =>
    rw [ha] at h
    simp only [Option.map_some', Option.some.injEq] at h
    obtain ⟨h1, h2⟩ := add_to_log_map_wf s s.topic_map hash48 height index_ptr hwf
      hwf.2.2.2.2.2 r.1 r.2 ha
    rw [← h]
    exact ⟨h1.1, h1.2.1, h1.2.2.1, h1.2.2.2.1, h1.2.2.2.2.1, h2⟩

/-- Right after a spilled `add_to_log_map` with a strictly ascending list of fewer than
`2^24` indices, each below `2^24`, the list stored for the new entry is that list, so it is
ascending. -/
theorem spilled_entry_ascending (s : indexer) (m : bigmap Nat) (hash48 height : Nat)
    (index_ptr : List Nat) (hwf : s.blk_htpos2ptr_map.wf) (e : Nat × Option (List Nat))
    (hg : get_iter_at_height s height = some e)
    (hlen : (vec_of_entry e).length < 2 ^ 61) (hn : 3 < index_ptr.length)
    (hn24 : index_ptr.length < 2 ^ 24) (hidx : ∀ x ∈ index_ptr, x < 2 ^ 24)
    (hasc : index_ptr.Pairwise (fun x y => x < y)) (hh : height < 2 ^ 32) :
    ∃ s1, add_to_log_map s m hash48 height index_ptr =
        some (s1, m.insert (hash48 >>> 32) (log_key hash48 height)
          ((vec_of_entry e).length ||| (7 <<< 61))) ∧
      stored_list s1 (log_key hash48 height, (vec_of_entry e).length ||| (7 <<< 61)) =
        some ⟨index_ptr, index_ptr.length⟩ ∧
      entry_ascending s1 (log_key hash48 height, (vec_of_entry e).length ||| (7 <<< 61)) =
        true := by
  obtain ⟨s1, h1, h2, _, _⟩ := add_to_log_map_spill s m hash48 height index_ptr hwf e hg hn
  have hvec1 := get_vec_at_height_of_entry s1 height _ h2
  have hvect : (get_vec_at_height s1 (log_key hash48 height % 2 ^ 32) false).1 =
      some (vec_of_entry e ++ [bits24.from_uint32 index_ptr.length] ++
        index_ptr.map bits24.from_uint32) := by
    rw [log_key_height hash48 height hh]
    exact hvec1
  obtain ⟨hr1, hr2⟩ := spill_vec_read (vec_of_entry e) (bits24.from_uint32 index_ptr.length)
    (index_ptr.map bits24.from_uint32)
  have hcount : bits24.from_uint32 index_ptr.length = index_ptr.length := by
    unfold bits24.from_uint32
    exact Nat.mod_eq_of_lt hn24
  have hstored : stored_list s1
      (log_key hash48 height, (vec_of_entry e).length ||| (7 <<< 61)) =
      some ⟨index_ptr, index_ptr.length⟩ := by
    rw [stored_list_spill s1 _ _ _ hlen hvect, hr1, hr2, map_from_uint32_id index_ptr hidx,
      hcount]
    rfl
  refine ⟨s1, h1, hstored, ?_⟩
  unfold entry_ascending
  rw [hstored]
  simp only [slots_ascending, bits24_list.slots, List.take_of_length_le (Nat.le_refl _),
    Bool.and_eq_true, decide_eq_true_eq, List.all_eq_true]
  exact ⟨hasc, hidx⟩

end MoeingDB
